import Mathlib

/-!
Verification of `cByteBuffer`, the transactional ring buffer of bytes of
`source/ByteBuffer.cpp`, over a shallow embedding of its methods.

* A byte is a `Nat` (its unsigned value, `0..255`).
* The C++ `int` cursors and counts are `Int`; every value that occurs stays far
  below `2^31`, so no wrap-around of machine integers is modelled.
* `m_Buffer` is the list of the `m_BufferSize` bytes of the allocation.
  `memcpy` from the buffer is a slice of that list, `memcpy` into the buffer
  replaces a slice; a single indexed load `m_Buffer[i]` is `none` when `i` lies
  outside the allocation (undefined behaviour in C++).
* A negative count that reaches `memcpy` (undefined behaviour in C++) is a
  transfer of zero bytes here; the cursor arithmetic is still that of the
  source.
* A negative count that reaches `reserve` or `assign` of the `AString` makes
  the call throw `std::length_error`: the readers that fill a string return
  `some none` for a call that left by that exception, with the object as it
  stood at the throw.
* A method `bool f(T & a_Value)` becomes a function returning
  `Option T × cByteBuffer`: `none` is `return false`, `some v` is `return true`
  with `a_Value = v`; the second component is the object after the call.
-/

namespace ByteBuffer

/-- The object state of `cByteBuffer`: storage and the three cursors. -/
structure cByteBuffer where
  m_Buffer : List Nat
  m_BufferSize : Int
  m_DataStart : Int
  m_WritePos : Int
  m_ReadPos : Int
deriving DecidableEq

/-- Bytes `[p, p + n)` of a memory region: the source of a `memcpy` of `n` bytes from offset `p`. -/
def slice (mem : List Nat) (p n : Int) : List Nat :=
  (mem.drop p.toNat).take n.toNat

/-- Destination of a `memcpy`: the region with the bytes from offset `p` on replaced by `src`. -/
def store (mem : List Nat) (p : Int) (src : List Nat) : List Nat :=
  mem.take p.toNat ++ src ++ mem.drop (p.toNat + src.length)

/-- Single indexed load `mem[i]`; `none` when the offset is outside the region. -/
def load (mem : List Nat) (i : Int) : Option Nat :=
  if 0 ≤ i then mem.get? i.toNat else none

/-- Constructor `cByteBuffer(a_BufferSize)`: one byte more than requested is allocated.
The allocation is not initialised; `junk` gives its indeterminate contents. -/
def new (a_BufferSize : Int) (junk : Nat → Nat) : cByteBuffer :=
  { m_Buffer := (List.range (a_BufferSize + 1).toNat).map junk
    m_BufferSize := a_BufferSize + 1
    m_DataStart := 0
    m_WritePos := 0
    m_ReadPos := 0 }

/-- `GetFreeSpace`. -/
def GetFreeSpace (s : cByteBuffer) : Int :=
  if s.m_WritePos ≥ s.m_DataStart then
    s.m_BufferSize - s.m_WritePos + s.m_DataStart - 1
  else
    s.m_DataStart - s.m_WritePos - 1

/-- `GetUsedSpace`. -/
def GetUsedSpace (s : cByteBuffer) : Int :=
  s.m_BufferSize - GetFreeSpace s

/-- `GetReadableSpace`. -/
def GetReadableSpace (s : cByteBuffer) : Int :=
  if s.m_ReadPos > s.m_WritePos then
    s.m_BufferSize - s.m_ReadPos + s.m_WritePos
  else
    s.m_WritePos - s.m_ReadPos

/-- `CanReadBytes`. -/
def CanReadBytes (s : cByteBuffer) (a_Count : Int) : Bool :=
  decide (a_Count ≤ GetReadableSpace s)

/-- `Write(a_Bytes, a_Count)`: the returned flag and the object afterwards.
`a_Bytes` is the caller's memory from the pointer on. -/
def Write (s : cByteBuffer) (a_Bytes : List Nat) (a_Count : Int) : Bool × cByteBuffer :=
  if GetFreeSpace s < a_Count then
    (false, s)
  else
    let TillEnd := s.m_BufferSize - s.m_WritePos
    if TillEnd < a_Count then
      let buf1 := store s.m_Buffer s.m_WritePos (slice a_Bytes 0 TillEnd)
      let bytes1 := a_Bytes.drop TillEnd.toNat
      let count1 := a_Count - TillEnd
      (true, { s with m_Buffer := store buf1 0 (slice bytes1 0 count1)
                      m_WritePos := 0 + count1 })
    else
      (true, { s with m_Buffer := store s.m_Buffer s.m_WritePos (slice a_Bytes 0 a_Count)
                      m_WritePos := s.m_WritePos + a_Count })

/-- `ReadChar`. -/
def ReadChar (s : cByteBuffer) : Option (Option Nat) × cByteBuffer :=
  if !CanReadBytes s 1 then (none, s)
  else (some (load s.m_Buffer s.m_ReadPos), { s with m_ReadPos := s.m_ReadPos + 1 })

/-- `ReadByte`. -/
def ReadByte (s : cByteBuffer) : Option (Option Nat) × cByteBuffer :=
  if !CanReadBytes s 1 then (none, s)
  else (some (load s.m_Buffer s.m_ReadPos), { s with m_ReadPos := s.m_ReadPos + 1 })

/-- `ReadBool`. -/
def ReadBool (s : cByteBuffer) : Option (Option Bool) × cByteBuffer :=
  if !CanReadBytes s 1 then (none, s)
  else (some ((load s.m_Buffer s.m_ReadPos).map (fun b => b != 0)),
        { s with m_ReadPos := s.m_ReadPos + 1 })

/-- `ReadBuf(a_Buffer, a_Count)`: on success the bytes copied to `a_Buffer`. -/
def ReadBuf (s : cByteBuffer) (a_Count : Int) : Option (List Nat) × cByteBuffer :=
  if !CanReadBytes s a_Count then (none, s)
  else
    let BytesToEndOfBuffer := s.m_BufferSize - s.m_ReadPos
    if BytesToEndOfBuffer < a_Count then
      let dst1 := slice s.m_Buffer s.m_ReadPos BytesToEndOfBuffer
      let count1 := a_Count - BytesToEndOfBuffer
      (some (dst1 ++ slice s.m_Buffer 0 count1), { s with m_ReadPos := 0 + count1 })
    else
      (some (slice s.m_Buffer s.m_ReadPos a_Count), { s with m_ReadPos := s.m_ReadPos + a_Count })

/-- `ReadString(a_String, a_Count)`: `none` is `return false`, `some (some bytes)` is
`return true` with the bytes of `a_String`, and `some none` is a call that left by
`std::length_error`: `a_String.reserve(a_Count)` throws for a negative count, and
`a_String.assign(m_Buffer + m_ReadPos, BytesToEndOfBuffer)` throws for a negative length; both
come before any change of `m_ReadPos`. -/
def ReadString (s : cByteBuffer) (a_Count : Int) : Option (Option (List Nat)) × cByteBuffer :=
  if !CanReadBytes s a_Count then (none, s)
  else if a_Count < 0 then (some none, s)
  else
    let BytesToEndOfBuffer := s.m_BufferSize - s.m_ReadPos
    if BytesToEndOfBuffer < a_Count then
      if BytesToEndOfBuffer < 0 then (some none, s)
      else
        let str1 := slice s.m_Buffer s.m_ReadPos BytesToEndOfBuffer
        let count1 := a_Count - BytesToEndOfBuffer
        (some (some (str1 ++ slice s.m_Buffer 0 count1)), { s with m_ReadPos := 0 + count1 })
    else
      (some (some ([] ++ slice s.m_Buffer s.m_ReadPos a_Count)),
        { s with m_ReadPos := s.m_ReadPos + a_Count })

/-- The unsigned value of a big-endian byte sequence (first byte most significant). -/
def beValue (bytes : List Nat) : Nat :=
  bytes.foldl (fun acc b => acc * 256 + b) 0

/-- The two's-complement reading of an unsigned `w`-bit value. -/
def toSigned (w : Nat) (v : Nat) : Int :=
  if v % 2 ^ w < 2 ^ (w - 1) then (v % 2 ^ w : Nat) else (v % 2 ^ w : Nat) - (2 ^ w : Nat)

/-- Modelled from the spec: `ntohs` of the C library, which is not among the sources, applied
to the `short` whose memory holds the bytes `raw` in address order. The spec has multi-byte
scalars big-endian on the wire and converted to host order on read, so the value is the
big-endian reading of the two bytes, as a signed 16-bit integer. -/
def ntohs (raw : List Nat) : Int :=
  toSigned 16 (beValue raw)

/-- Modelled from the spec: `ntohl` of the C library, which is not among the sources, applied
to the `int` whose memory holds the bytes `raw` in address order: the big-endian reading of the
four bytes, as a signed 32-bit integer. -/
def ntohl (raw : List Nat) : Int :=
  toSigned 32 (beValue raw)

/-- Modelled from the spec: `NetworkToHostLong8` of `Endianness.h`, which is not among the
sources, applied to the eight bytes `raw` in address order: their big-endian reading, as a
signed 64-bit integer. -/
def NetworkToHostLong8 (raw : List Nat) : Int :=
  toSigned 64 (beValue raw)

/-- Modelled from the spec: `NetworkToHostFloat4` of `Endianness.h`, which is not among the
sources, applied to the four bytes `raw` in address order. The `float` is given by its 32-bit
IEEE pattern, the big-endian reading of the bytes. -/
def NetworkToHostFloat4 (raw : List Nat) : Nat :=
  beValue raw

/-- Modelled from the spec: `NetworkToHostDouble8` of `Endianness.h`, which is not among the
sources, applied to the eight bytes `raw` in address order. The `double` is given by its 64-bit
IEEE pattern, the big-endian reading of the bytes. -/
def NetworkToHostDouble8 (raw : List Nat) : Nat :=
  beValue raw

/-- `ReadBEShort`: `ReadBuf` into the `short`, then `ntohs`. -/
def ReadBEShort (s : cByteBuffer) : Option Int × cByteBuffer :=
  if !CanReadBytes s 2 then (none, s)
  else
    let r := ReadBuf s 2
    (some (ntohs (r.1.getD [])), r.2)

/-- `ReadBEInt`: `ReadBuf` into the `int`, then `ntohl`. -/
def ReadBEInt (s : cByteBuffer) : Option Int × cByteBuffer :=
  if !CanReadBytes s 4 then (none, s)
  else
    let r := ReadBuf s 4
    (some (ntohl (r.1.getD [])), r.2)

/-- `ReadBEInt64`: `ReadBuf` into the `Int64`, then `NetworkToHostLong8`. -/
def ReadBEInt64 (s : cByteBuffer) : Option Int × cByteBuffer :=
  if !CanReadBytes s 8 then (none, s)
  else
    let r := ReadBuf s 8
    (some (NetworkToHostLong8 (r.1.getD [])), r.2)

/-- `ReadBEFloat`: `ReadBuf` into the `float`, then `NetworkToHostFloat4`. -/
def ReadBEFloat (s : cByteBuffer) : Option Nat × cByteBuffer :=
  if !CanReadBytes s 4 then (none, s)
  else
    let r := ReadBuf s 4
    (some (NetworkToHostFloat4 (r.1.getD [])), r.2)

/-- `ReadBEDouble`: `ReadBuf` into the `double`, then `NetworkToHostDouble8`. -/
def ReadBEDouble (s : cByteBuffer) : Option Nat × cByteBuffer :=
  if !CanReadBytes s 8 then (none, s)
  else
    let r := ReadBuf s 8
    (some (NetworkToHostDouble8 (r.1.getD [])), r.2)

/-- `ReadUTF16String(a_String, a_NumChars)`. The transcoder `RawBEToUTF8` is a parameter:
it receives the raw bytes and the number of code units. An exception of `ReadString` passes
through (`some none`). -/
def ReadUTF16String (RawBEToUTF8 : List Nat → Int → List Nat) (s : cByteBuffer)
    (a_NumChars : Int) : Option (Option (List Nat)) × cByteBuffer :=
  let r := ReadString s (a_NumChars * 2)
  match r.1 with
  | none => (none, r.2)
  | some none => (some none, r.2)
  | some (some RawData) => (some (some (RawBEToUTF8 RawData a_NumChars)), r.2)

/-- `ReadBEUTF16String16`. An exception of `ReadUTF16String` passes through (`some none`). -/
def ReadBEUTF16String16 (RawBEToUTF8 : List Nat → Int → List Nat) (s : cByteBuffer) :
    Option (Option (List Nat)) × cByteBuffer :=
  let r := ReadBEShort s
  match r.1 with
  | none => (none, r.2)
  | some Length => ReadUTF16String RawBEToUTF8 r.2 Length

/-- `AdvanceReadPos`. -/
def AdvanceReadPos (s : cByteBuffer) (a_Count : Int) : cByteBuffer :=
  let s1 := { s with m_ReadPos := s.m_ReadPos + a_Count }
  if s1.m_ReadPos > s1.m_BufferSize then
    { s1 with m_ReadPos := s1.m_ReadPos - s1.m_BufferSize }
  else s1

/-- `SkipRead`. -/
def SkipRead (s : cByteBuffer) (a_Count : Int) : Bool × cByteBuffer :=
  if !CanReadBytes s a_Count then (false, s)
  else (true, AdvanceReadPos s a_Count)

/-- `ReadAll`: the data handed back and the object afterwards; `none` is a call that left by
the `std::length_error` of `ReadString`. The result of `ReadString` is not looked at; it cannot
be `false`, as the count is the readable space. -/
def ReadAll (s : cByteBuffer) : Option (List Nat) × cByteBuffer :=
  let r := ReadString s (GetReadableSpace s)
  (match r.1 with
    | some (some a_Data) => some a_Data
    | some none => none
    | none => some [], r.2)

/-- `CommitRead`. -/
def CommitRead (s : cByteBuffer) : cByteBuffer :=
  { s with m_DataStart := s.m_ReadPos }

/-- `ResetRead`. -/
def ResetRead (s : cByteBuffer) : cByteBuffer :=
  { s with m_ReadPos := s.m_DataStart }

/-- What a read call hands back to its caller. -/
inductive ReadOut
  | failed
  | byte (v : Option Nat)
  | flag (v : Option Bool)
  | int (v : Int)
  | bits (v : Nat)
  | bytes (v : List Nat)
  | thrown
deriving DecidableEq

/-- Packs the result of a `bool`-returning reader as an observation and the object afterwards. -/
def observe {α : Type} (f : α → ReadOut) (r : Option α × cByteBuffer) : ReadOut × cByteBuffer :=
  (match r.1 with
    | none => ReadOut.failed
    | some v => f v, r.2)

/-- What a reader that fills a string hands back: the bytes, or the exception it left by. -/
def bytesOrThrown : Option (List Nat) → ReadOut
  | some v => ReadOut.bytes v
  | none => ReadOut.thrown

/-- The read calls of the class. -/
inductive ReadCall
  | readChar
  | readByte
  | readBool
  | readBEShort
  | readBEInt
  | readBEInt64
  | readBEFloat
  | readBEDouble
  | readBEUTF16String16
  | readBuf (a_Count : Int)
  | readString (a_Count : Int)
  | readUTF16String (a_NumChars : Int)
  | skipRead (a_Count : Int)
  | readAll
deriving DecidableEq

/-- One read call: what it returns and the object afterwards. -/
def ReadCall.run (RawBEToUTF8 : List Nat → Int → List Nat) (s : cByteBuffer) :
    ReadCall → ReadOut × cByteBuffer
  | ReadCall.readChar => observe ReadOut.byte (ReadChar s)
  | ReadCall.readByte => observe ReadOut.byte (ReadByte s)
  | ReadCall.readBool => observe ReadOut.flag (ReadBool s)
  | ReadCall.readBEShort => observe ReadOut.int (ReadBEShort s)
  | ReadCall.readBEInt => observe ReadOut.int (ReadBEInt s)
  | ReadCall.readBEInt64 => observe ReadOut.int (ReadBEInt64 s)
  | ReadCall.readBEFloat => observe ReadOut.bits (ReadBEFloat s)
  | ReadCall.readBEDouble => observe ReadOut.bits (ReadBEDouble s)
  | ReadCall.readBEUTF16String16 => observe bytesOrThrown (ReadBEUTF16String16 RawBEToUTF8 s)
  | ReadCall.readBuf a_Count => observe ReadOut.bytes (ReadBuf s a_Count)
  | ReadCall.readString a_Count => observe bytesOrThrown (ReadString s a_Count)
  | ReadCall.readUTF16String a_NumChars =>
      observe bytesOrThrown (ReadUTF16String RawBEToUTF8 s a_NumChars)
  | ReadCall.skipRead a_Count =>
      ((if (SkipRead s a_Count).1 then ReadOut.bytes [] else ReadOut.failed), (SkipRead s a_Count).2)
  | ReadCall.readAll => (bytesOrThrown (ReadAll s).1, (ReadAll s).2)

/-- The object after a sequence of read calls. -/
def runReads (RawBEToUTF8 : List Nat → Int → List Nat) (s : cByteBuffer)
    (calls : List ReadCall) : cByteBuffer :=
  calls.foldl (fun st c => (ReadCall.run RawBEToUTF8 st c).2) s

/-- Every public operation on an existing object. -/
inductive Call
  | read (c : ReadCall)
  | write (a_Bytes : List Nat) (a_Count : Int)
  | commitRead
  | resetRead
  | advanceReadPos (a_Count : Int)
deriving DecidableEq

/-- The object after one operation. -/
def Call.exec (RawBEToUTF8 : List Nat → Int → List Nat) (s : cByteBuffer) : Call → cByteBuffer
  | Call.read c => (ReadCall.run RawBEToUTF8 s c).2
  | Call.write a_Bytes a_Count => (Write s a_Bytes a_Count).2
  | Call.commitRead => CommitRead s
  | Call.resetRead => ResetRead s
  | Call.advanceReadPos a_Count => AdvanceReadPos s a_Count

/-- The readers touch nothing but `m_ReadPos`: `s2` differs from `s1` at most there. -/
def ReadFrame (s1 s2 : cByteBuffer) : Prop :=
  s2.m_Buffer = s1.m_Buffer ∧ s2.m_BufferSize = s1.m_BufferSize ∧
    s2.m_DataStart = s1.m_DataStart ∧ s2.m_WritePos = s1.m_WritePos

/-- A reader that needs `need` bytes behaves as a no-op when they are not there: it fails
exactly when fewer than `need` bytes are readable, and a failed call returns the object as it
was, so the readable space is the same before and after. -/
def NoOpWhenShort {α : Type} (s : cByteBuffer) (need : Int) (r : Option α × cByteBuffer) : Prop :=
  (r.1 = none ↔ GetReadableSpace s < need) ∧
    (r.1 = none → r.2 = s ∧ GetReadableSpace r.2 = GetReadableSpace s)

/-- An all-zero initial content of the allocation, for concrete runs. -/
def zeroed : Nat → Nat := fun _ => 0

/-- A transcoder stand-in that hands the raw bytes through, for concrete runs. -/
def rawBytes : List Nat → Int → List Nat := fun raw _ => raw

/-- The object after a sequence of operations. -/
def execAll (RawBEToUTF8 : List Nat → Int → List Nat) (s : cByteBuffer)
    (calls : List Call) : cByteBuffer :=
  calls.foldl (Call.exec RawBEToUTF8) s

/-- Physical offset of the byte `k` places after cursor `p` in a ring of `size` bytes. -/
def phys (size p : Int) (k : Nat) : Nat :=
  (if p + k < size then p + k else p + k - size).toNat

/-- The calls of a run with non-negative counts; `write bytes` passes `bytes` and its length. -/
inductive Op
  | write (bytes : List Nat)
  | readBuf (n : Nat)
  | readString (n : Nat)
  | skipRead (n : Nat)
  | readAll
  | commitRead
  | resetRead
deriving DecidableEq

/-- A ring together with the history of the run that led to it. -/
structure Trace where
  /-- the object -/
  st : cByteBuffer
  /-- the bytes accepted by the successful `Write` calls, in order -/
  written : List Nat
  /-- the bytes returned by the successful `ReadBuf`, `ReadString` and `ReadAll` calls, in order -/
  readOut : List Nat
  /-- the number of bytes committed by `CommitRead` calls -/
  committed : Nat
  /-- the number of bytes consumed by successful reads since the last `CommitRead` or `ResetRead` -/
  pending : Nat

/-- One call of a run, with the bookkeeping of what was accepted and returned. -/
def Trace.step (t : Trace) : Op → Trace
  | Op.write bytes =>
      if (Write t.st bytes bytes.length).1 then
        { t with st := (Write t.st bytes bytes.length).2, written := t.written ++ bytes }
      else { t with st := (Write t.st bytes bytes.length).2 }
  | Op.readBuf n =>
      match (ReadBuf t.st n).1 with
      | some bs => { t with st := (ReadBuf t.st n).2, readOut := t.readOut ++ bs,
                            pending := t.pending + n }
      | none => { t with st := (ReadBuf t.st n).2 }
  | Op.readString n =>
      match (ReadString t.st n).1 with
      | some (some bs) => { t with st := (ReadString t.st n).2, readOut := t.readOut ++ bs,
                                   pending := t.pending + n }
      | _ => { t with st := (ReadString t.st n).2 }
  | Op.skipRead n =>
      if (SkipRead t.st n).1 then
        { t with st := (SkipRead t.st n).2, pending := t.pending + n }
      else { t with st := (SkipRead t.st n).2 }
  | Op.readAll =>
      match (ReadAll t.st).1 with
      | some bs => { t with st := (ReadAll t.st).2, readOut := t.readOut ++ bs,
                            pending := t.pending + bs.length }
      | none => { t with st := (ReadAll t.st).2 }
  | Op.commitRead =>
      { t with st := CommitRead t.st, committed := t.committed + t.pending, pending := 0 }
  | Op.resetRead => { t with st := ResetRead t.st, pending := 0 }

/-- The fresh ring with `C` usable bytes and an empty history. -/
def Trace.start (C : Int) (junk : Nat → Nat) : Trace :=
  { st := new C junk, written := [], readOut := [], committed := 0, pending := 0 }

/-- A run: the calls applied in order. -/
def Trace.run (t : Trace) (ops : List Op) : Trace :=
  ops.foldl Trace.step t

/-- The number of live bytes of a run: accepted by `Write` and not yet committed. -/
def Trace.liveBytes (t : Trace) : Int :=
  (t.written.length : Int) - t.committed

/-- The invariant of the runs: the cursors are offsets into the storage, they stand where the
history says, and the live bytes of the storage are the uncommitted part of what was written. -/
structure Inv (t : Trace) : Prop where
  size_pos : 1 ≤ t.st.m_BufferSize
  len : (t.st.m_Buffer.length : Int) = t.st.m_BufferSize
  ds_lo : 0 ≤ t.st.m_DataStart
  ds_hi : t.st.m_DataStart ≤ t.st.m_BufferSize
  rp_lo : 0 ≤ t.st.m_ReadPos
  rp_hi : t.st.m_ReadPos ≤ t.st.m_BufferSize
  wp_lo : 0 ≤ t.st.m_WritePos
  wp_hi : t.st.m_WritePos ≤ t.st.m_BufferSize
  consumed : t.committed + t.pending ≤ t.written.length
  room : t.liveBytes ≤ t.st.m_BufferSize - 1
  live : (t.st.m_DataStart ≤ t.st.m_WritePos ∧
      t.st.m_WritePos - t.st.m_DataStart = t.liveBytes) ∨
    (t.st.m_WritePos < t.st.m_DataStart ∧
      t.st.m_BufferSize - t.st.m_DataStart + t.st.m_WritePos = t.liveBytes)
  unread : (t.st.m_ReadPos ≤ t.st.m_WritePos ∧
      t.st.m_WritePos - t.st.m_ReadPos = t.liveBytes - t.pending) ∨
    (t.st.m_WritePos < t.st.m_ReadPos ∧
      t.st.m_BufferSize - t.st.m_ReadPos + t.st.m_WritePos = t.liveBytes - t.pending)
  content : ∀ k : Nat, t.committed + k < t.written.length →
    t.st.m_Buffer[phys t.st.m_BufferSize t.st.m_DataStart k]? = t.written[t.committed + k]?

/-- The calls of a first-in-first-out run: writes, block reads and commits. -/
inductive FifoOp
  | write (bytes : List Nat)
  | readBuf (n : Nat)
  | commitRead
deriving DecidableEq

/-- A first-in-first-out call as a call of a run. -/
def FifoOp.toOp : FifoOp → Op
  | FifoOp.write bytes => Op.write bytes
  | FifoOp.readBuf n => Op.readBuf n
  | FifoOp.commitRead => Op.commitRead

/-- A ring of 7 usable bytes (storage 8) whose read cursor stands at the physical end of the
storage while two unread bytes, `9` and `10`, lie at offsets 0 and 1. -/
def readAtEnd : cByteBuffer :=
  { m_Buffer := [9, 10, 3, 4, 5, 6, 7, 8]
    m_BufferSize := 8
    m_DataStart := 7
    m_WritePos := 2
    m_ReadPos := 8 }

/-- Calls on a ring of 7 usable bytes that bring the read cursor to the physical end, read two
bytes with `ReadChar` there, commit, and fill the ring again. -/
def pastEndCalls : List Call :=
  [Call.write [1, 2, 3, 4, 5, 6, 7] 7, Call.read (ReadCall.readBuf 7), Call.commitRead,
    Call.write [8, 9, 10] 3, Call.read (ReadCall.readBuf 1), Call.read ReadCall.readChar,
    Call.read ReadCall.readChar, Call.commitRead]

/-- The ring `readAtEnd` after one `ReadChar`: the read cursor is 9, one past the storage size
8, and the byte `10` at offset 1 is still unread. -/
def readPastEnd : cByteBuffer :=
  { m_Buffer := [9, 10, 3, 4, 5, 6, 7, 8]
    m_BufferSize := 8
    m_DataStart := 7
    m_WritePos := 2
    m_ReadPos := 9 }

/-- Calls on a fresh ring of 7 usable bytes that end in `readPastEnd`: the read cursor is
brought to the physical end and one `ReadChar` is made there. -/
def readPastEndCalls : List Call :=
  [Call.write [1, 2, 3, 4, 5, 6, 7] 7, Call.read (ReadCall.readBuf 7), Call.commitRead,
    Call.write [8, 9, 10] 3, Call.read (ReadCall.readBuf 1), Call.read ReadCall.readChar]

/-- The ring after `pastEndCalls` and an accepted `Write` of the seven bytes `0, 1, ..., 6`. -/
def refilledPastEnd : cByteBuffer :=
  (Write (execAll rawBytes (new 7 zeroed) pastEndCalls) [0, 1, 2, 3, 4, 5, 6] 7).2

/-- A ring of 7 usable bytes whose read cursor is 9, one past the storage size 8, while the two
unread bytes, the length `0x0000`, lie at offsets 1 and 2. -/
def lengthPastEnd : cByteBuffer :=
  { m_Buffer := [9, 0, 0, 4, 5, 6, 7, 8]
    m_BufferSize := 8
    m_DataStart := 7
    m_WritePos := 3
    m_ReadPos := 9 }

/-- Calls on a fresh ring of 7 usable bytes that end in `lengthPastEnd`. -/
def lengthPastEndCalls : List Call :=
  [Call.write [1, 2, 3, 4, 5, 6, 7] 7, Call.read (ReadCall.readBuf 7), Call.commitRead,
    Call.write [8, 9, 0, 0] 4, Call.read (ReadCall.readBuf 1), Call.read ReadCall.readChar]

/-- A ring of 15 usable bytes holding the length bytes `0xFF, 0xFF` and two further bytes. -/
def negativeLengthRing : cByteBuffer :=
  (Write (new 15 zeroed) [255, 255, 1, 2] 4).2

/-- The ring of the decoding scenario: 15 usable bytes, the ten bytes `0, 1, ..., 9` written. -/
def scenarioRing : cByteBuffer :=
  (Write (new 15 zeroed) [0, 1, 2, 3, 4, 5, 6, 7, 8, 9] 10).2

/-- The scenario after `ReadBEShort`, `ReadBEInt` and `CommitRead`. -/
def scenarioCommitted : cByteBuffer :=
  CommitRead (ReadBEInt (ReadBEShort scenarioRing).2).2

/-- The `memcpy` calls of `Write(a_Bytes, a_Count)` into `m_Buffer`, in order: the destination
offset and the length of each. -/
def WriteCopies (s : cByteBuffer) (a_Count : Int) : List (Int × Int) :=
  if GetFreeSpace s < a_Count then []
  else
    let TillEnd := s.m_BufferSize - s.m_WritePos
    if TillEnd < a_Count then [(s.m_WritePos, TillEnd), (0, a_Count - TillEnd)]
    else [(s.m_WritePos, a_Count)]

/-- The `memcpy` calls of `ReadBuf(a_Buffer, a_Count)` out of `m_Buffer`, in order: the source
offset and the length of each. -/
def ReadBufCopies (s : cByteBuffer) (a_Count : Int) : List (Int × Int) :=
  if !CanReadBytes s a_Count then []
  else
    let BytesToEndOfBuffer := s.m_BufferSize - s.m_ReadPos
    if BytesToEndOfBuffer < a_Count then
      [(s.m_ReadPos, BytesToEndOfBuffer), (0, a_Count - BytesToEndOfBuffer)]
    else [(s.m_ReadPos, a_Count)]

/-- The `assign` and `append` calls of `ReadString(a_String, a_Count)` that copy out of
`m_Buffer`, in order: the source offset and the length of each. A call that throws
`std::length_error` copies nothing, and nothing runs after it. -/
def ReadStringCopies (s : cByteBuffer) (a_Count : Int) : List (Int × Int) :=
  if !CanReadBytes s a_Count then []
  else if a_Count < 0 then []
  else
    let BytesToEndOfBuffer := s.m_BufferSize - s.m_ReadPos
    if BytesToEndOfBuffer < a_Count then
      if BytesToEndOfBuffer < 0 then []
      else [(s.m_ReadPos, BytesToEndOfBuffer), (0, a_Count - BytesToEndOfBuffer)]
    else [(s.m_ReadPos, a_Count)]

/-- One copy into the storage: the next `c.2` bytes of the source go to offset `c.1`. -/
def copyIn (st : List Nat × List Nat) (c : Int × Int) : List Nat × List Nat :=
  (store st.1 c.1 (slice st.2 0 c.2), st.2.drop c.2.toNat)

/-- One copy out of the storage `mem`: `c.2` bytes from offset `c.1` are appended to `dst`. -/
def copyOut (mem : List Nat) (dst : List Nat) (c : Int × Int) : List Nat :=
  dst ++ slice mem c.1 c.2

/-- A copy of `c.2` bytes at offset `c.1` stays inside a storage of `S` bytes: offset and
length are non-negative, the copy ends at or before the end of the storage, and so every byte
offset it touches lies in `[0, S - 1]`. -/
def CopyInBounds (S : Int) (c : Int × Int) : Prop :=
  0 ≤ c.1 ∧ 0 ≤ c.2 ∧ c.2 ≤ S ∧ c.1 + c.2 ≤ S ∧
    ∀ o : Int, c.1 ≤ o → o < c.1 + c.2 → 0 ≤ o ∧ o ≤ S - 1

end ByteBuffer

/-! Chunk coordinates of `src/ChunkDef.h`, with `AXIS_ORDER` set to `AXIS_ORDER_XZY` as the
header defines it. `int` values are `Int`, `size_t` values are `Nat`; the casts between them
wrap at 64 and 32 bits. -/

namespace cChunkDef

/-- `Vector3i`: three `int` coordinates. -/
structure Vector3i where
  x : Int
  y : Int
  z : Int
deriving DecidableEq

/-- `Width`. -/
def Width : Int := 16

/-- `Height`. -/
def Height : Int := 256

/-- `NumBlocks`. -/
def NumBlocks : Int := Width * Height * Width

/-- `static_cast<size_t>` of an `int`: the value modulo `2 ^ 64`. -/
def toSizeT (v : Int) : Nat :=
  (v % 18446744073709551616).toNat

/-- `static_cast<int>` of a `size_t`: the low 32 bits in two's complement. -/
def toInt (v : Nat) : Int :=
  if v % 4294967296 < 2147483648 then ((v % 4294967296 : Nat) : Int)
  else ((v % 4294967296 : Nat) : Int) - 4294967296

/-- `IsValidHeight`. -/
def IsValidHeight (a_Height : Int) : Bool :=
  decide (a_Height ≥ 0) && decide (a_Height < Height)

/-- `IsValidWidth`. -/
def IsValidWidth (a_Width : Int) : Bool :=
  decide (a_Width ≥ 0) && decide (a_Width < Width)

/-- `IsValidRelPos`. -/
def IsValidRelPos (a_RelPos : Vector3i) : Bool :=
  IsValidWidth a_RelPos.x && IsValidHeight a_RelPos.y && IsValidWidth a_RelPos.z

/-- `MakeIndex(x, y, z)`, the `AXIS_ORDER_XZY` branch. The `ASSERT` on the position is a debug
check and returns nothing. -/
def MakeIndex (x y z : Int) : Nat :=
  toSizeT (x + (z * Width) + (y * Width * Width))

/-- `MakeIndex(a_RelPos)`. -/
def MakeIndexOf (a_RelPos : Vector3i) : Nat :=
  MakeIndex a_RelPos.x a_RelPos.y a_RelPos.z

/-- `IndexToCoordinate(index)`, the `AXIS_ORDER_XZY` branch; the `int` constants are converted
to `size_t` for the unsigned division and remainder. -/
def IndexToCoordinate (index : Nat) : Vector3i :=
  { x := toInt (index % toSizeT Width)
    y := toInt (index / toSizeT (Width * Width))
    z := toInt ((index / toSizeT Width) % toSizeT Width) }

/-- `static_cast<NIBBLETYPE>`, and the conversion of a returned value to `NIBBLETYPE`, an
`unsigned char`: the value modulo 256. -/
def toNibbleType (v : Nat) : Nat :=
  v % 256

/-- The byte that `PackNibble` stores at `a_Buffer[a_Index / 2]` when the byte there is `b`. -/
def packedByte (b a_Index a_Nibble : Nat) : Nat :=
  toNibbleType
    ((b &&& (0xf0 >>> ((a_Index &&& 1) * 4))) |||
      ((a_Nibble &&& 0x0f) <<< ((a_Index &&& 1) * 4)))

/-- `PackNibble(a_Buffer, a_Index, a_Nibble)`: the buffer afterwards. The `ASSERT` on the
nibble is a debug check. A store outside the buffer, undefined in C++, leaves the list as it
is. -/
def PackNibble (a_Buffer : List Nat) (a_Index a_Nibble : Nat) : List Nat :=
  a_Buffer.set (a_Index / 2) (packedByte (a_Buffer.getD (a_Index / 2) 0) a_Index a_Nibble)

/-- The nibble that `ExpandNibble` takes out of the byte `b`. -/
def expandedNibble (b a_Index : Nat) : Nat :=
  toNibbleType ((b >>> ((a_Index &&& 1) * 4)) &&& 0x0f)

/-- `ExpandNibble(a_Buffer, a_Index)`; `none` when `a_Index / 2` lies outside the buffer. -/
def ExpandNibble (a_Buffer : List Nat) (a_Index : Nat) : Option Nat :=
  (a_Buffer[a_Index / 2]?).map (fun b => expandedNibble b a_Index)

end cChunkDef

namespace ByteBuffer

/-! ## Statements that hold in every object state -/

theorem ReadFrame.refl (s : cByteBuffer) : ReadFrame s s := ⟨rfl, rfl, rfl, rfl⟩

theorem ReadFrame.trans {s1 s2 s3 : cByteBuffer} (h12 : ReadFrame s1 s2) (h23 : ReadFrame s2 s3) :
    ReadFrame s1 s3 :=
  ⟨h23.1.trans h12.1, h23.2.1.trans h12.2.1, h23.2.2.1.trans h12.2.2.1,
    h23.2.2.2.trans h12.2.2.2⟩

theorem ReadBuf_frame (s : cByteBuffer) (n : Int) : ReadFrame s (ReadBuf s n).2 := by
  unfold ReadBuf; dsimp only; split_ifs <;> exact ⟨rfl, rfl, rfl, rfl⟩

theorem ReadString_frame (s : cByteBuffer) (n : Int) : ReadFrame s (ReadString s n).2 := by
  unfold ReadString; dsimp only; split_ifs <;> exact ⟨rfl, rfl, rfl, rfl⟩

theorem ReadBEShort_frame (s : cByteBuffer) : ReadFrame s (ReadBEShort s).2 := by
  unfold ReadBEShort; split <;> [exact ReadFrame.refl s; exact ReadBuf_frame s 2]

theorem ReadUTF16String_state (T : List Nat → Int → List Nat) (s : cByteBuffer) (n : Int) :
    (ReadUTF16String T s n).2 = (ReadString s (n * 2)).2 := by
  unfold ReadUTF16String; dsimp only; split <;> rfl

theorem ReadUTF16String_frame (T : List Nat → Int → List Nat) (s : cByteBuffer) (n : Int) :
    ReadFrame s (ReadUTF16String T s n).2 := by
  rw [ReadUTF16String_state]; exact ReadString_frame s _

theorem ReadBEUTF16String16_frame (T : List Nat → Int → List Nat) (s : cByteBuffer) :
    ReadFrame s (ReadBEUTF16String16 T s).2 := by
  unfold ReadBEUTF16String16; dsimp only; split
  · exact ReadBEShort_frame s
  · exact (ReadBEShort_frame s).trans (ReadUTF16String_frame T _ _)

theorem ReadCall_frame (T : List Nat → Int → List Nat) (s : cByteBuffer) (c : ReadCall) :
    ReadFrame s (ReadCall.run T s c).2 := by
  cases c <;> simp only [ReadCall.run, observe]
  · unfold ReadChar; split <;> exact ⟨rfl, rfl, rfl, rfl⟩
  · unfold ReadByte; split <;> exact ⟨rfl, rfl, rfl, rfl⟩
  · unfold ReadBool; split <;> exact ⟨rfl, rfl, rfl, rfl⟩
  · exact ReadBEShort_frame s
  · unfold ReadBEInt; split <;> [exact ReadFrame.refl s; exact ReadBuf_frame s 4]
  · unfold ReadBEInt64; split <;> [exact ReadFrame.refl s; exact ReadBuf_frame s 8]
  · unfold ReadBEFloat; split <;> [exact ReadFrame.refl s; exact ReadBuf_frame s 4]
  · unfold ReadBEDouble; split <;> [exact ReadFrame.refl s; exact ReadBuf_frame s 8]
  · exact ReadBEUTF16String16_frame T s
  · exact ReadBuf_frame s _
  · exact ReadString_frame s _
  · exact ReadUTF16String_frame T s _
  · unfold SkipRead AdvanceReadPos; dsimp only; split_ifs <;> exact ⟨rfl, rfl, rfl, rfl⟩
  · exact ReadString_frame s _

theorem runReads_frame (T : List Nat → Int → List Nat) (calls : List ReadCall) :
    ∀ s : cByteBuffer, ReadFrame s (runReads T s calls) := by
  induction calls with
  | nil => intro s; exact ReadFrame.refl s
  | cons c cs ih =>
    intro s
    exact (ReadCall_frame T s c).trans (ih _)

theorem ResetRead_of_frame {s1 s2 : cByteBuffer} (h : ReadFrame s1 s2)
    (hp : s1.m_ReadPos = s1.m_DataStart) : ResetRead s2 = s1 := by
  obtain ⟨b1, z1, d1, w1, r1⟩ := s1
  obtain ⟨b2, z2, d2, w2, r2⟩ := s2
  obtain ⟨hb, hz, hd, hw⟩ := h
  simp only at hb hz hd hw hp
  subst hb hz hd hw hp
  rfl

theorem Call_exec_size (T : List Nat → Int → List Nat) (s : cByteBuffer) (c : Call) :
    (Call.exec T s c).m_BufferSize = s.m_BufferSize := by
  cases c with
  | read r => exact (ReadCall_frame T s r).2.1
  | write b n => simp only [Call.exec]; unfold Write; dsimp only; split_ifs <;> rfl
  | commitRead => rfl
  | resetRead => rfl
  | advanceReadPos n => simp only [Call.exec]; unfold AdvanceReadPos; dsimp only; split_ifs <;> rfl

theorem execAll_size (T : List Nat → Int → List Nat) (calls : List Call) :
    ∀ s : cByteBuffer, (execAll T s calls).m_BufferSize = s.m_BufferSize := by
  induction calls with
  | nil => intro s; rfl
  | cons c cs ih =>
    intro s
    show (execAll T (Call.exec T s c) cs).m_BufferSize = s.m_BufferSize
    rw [ih, Call_exec_size]

theorem ReadString_fail (s : cByteBuffer) (n : Int) (h : GetReadableSpace s < n) :
    ReadString s n = (none, s) := by
  unfold ReadString CanReadBytes
  rw [if_pos (by simpa using h)]

theorem ReadString_ne_none (s : cByteBuffer) (n : Int) (h : n ≤ GetReadableSpace s) :
    (ReadString s n).1 ≠ none := by
  unfold ReadString CanReadBytes
  dsimp only
  rw [if_neg (by simpa using h)]
  split_ifs <;> simp

theorem noOp_of_check {α : Type} (s : cByteBuffer) (need : Int) (v : α) (s2 : cByteBuffer) :
    NoOpWhenShort s need
      (if !CanReadBytes s need then ((none : Option α), s) else (some v, s2)) := by
  unfold NoOpWhenShort CanReadBytes
  by_cases h : need ≤ GetReadableSpace s
  · simp [h]
  · simp [h]; omega

/-! ## The claims that hold in every object state -/

/-- C2. `Write` is all-or-nothing: for every ring state and every count `≥ 0`, `Write` returns
failure exactly when the count exceeds `GetFreeSpace`, and a failed `Write` leaves the whole
object (storage, write cursor, read cursor, commit point) as it was. -/
theorem Write_all_or_nothing (s : cByteBuffer) (a_Bytes : List Nat) (a_Count : Int)
    (_h : 0 ≤ a_Count) :
    ((Write s a_Bytes a_Count).1 = false ↔ GetFreeSpace s < a_Count) ∧
      ((Write s a_Bytes a_Count).1 = false → (Write s a_Bytes a_Count).2 = s) := by
  unfold Write
  dsimp only
  split_ifs with h1 h2 <;> simp [h1]

/-- C2, the scenario of the claim: a ring with 7 usable bytes holding 7 written bytes reports
no free space, rejects a further 1-byte `Write` and is left unchanged. -/
theorem Write_all_or_nothing_witness :
    (Write (new 7 zeroed) [1, 2, 3, 4, 5, 6, 7] 7).1 = true ∧
      GetFreeSpace (Write (new 7 zeroed) [1, 2, 3, 4, 5, 6, 7] 7).2 = 0 ∧
      (Write (Write (new 7 zeroed) [1, 2, 3, 4, 5, 6, 7] 7).2 [8] 1).1 = false ∧
      (Write (Write (new 7 zeroed) [1, 2, 3, 4, 5, 6, 7] 7).2 [8] 1).2 =
        (Write (new 7 zeroed) [1, 2, 3, 4, 5, 6, 7] 7).2 :=
  ⟨by decide, by decide,
    (Write_all_or_nothing (Write (new 7 zeroed) [1, 2, 3, 4, 5, 6, 7] 7).2 [8] 1
      (by decide)).1.2 (by decide),
    (Write_all_or_nothing (Write (new 7 zeroed) [1, 2, 3, 4, 5, 6, 7] 7).2 [8] 1
      (by decide)).2 (by decide)⟩

/-- C3. Insufficient-data no-op of the fixed-size and counted readers: in every ring state each
of `ReadChar`, `ReadByte`, `ReadBool` (1 byte), `ReadBEShort` (2), `ReadBEInt`, `ReadBEFloat` (4),
`ReadBEInt64`, `ReadBEDouble` (8), `ReadBuf(n)`, `ReadString(n)` and `SkipRead(n)` fails exactly
when `GetReadableSpace` is below the bytes it needs, and a failed call leaves the object, hence
`GetReadableSpace`, unchanged. -/
theorem readers_noop_when_short (s : cByteBuffer) (n : Int) :
    NoOpWhenShort s 1 (ReadChar s) ∧ NoOpWhenShort s 1 (ReadByte s) ∧
      NoOpWhenShort s 1 (ReadBool s) ∧ NoOpWhenShort s 2 (ReadBEShort s) ∧
      NoOpWhenShort s 4 (ReadBEInt s) ∧ NoOpWhenShort s 4 (ReadBEFloat s) ∧
      NoOpWhenShort s 8 (ReadBEInt64 s) ∧ NoOpWhenShort s 8 (ReadBEDouble s) ∧
      NoOpWhenShort s n (ReadBuf s n) ∧ NoOpWhenShort s n (ReadString s n) ∧
      ((SkipRead s n).1 = false ↔ GetReadableSpace s < n) ∧
      ((SkipRead s n).1 = false →
        (SkipRead s n).2 = s ∧ GetReadableSpace (SkipRead s n).2 = GetReadableSpace s) := by
  refine ⟨noOp_of_check s 1 _ _, noOp_of_check s 1 _ _, noOp_of_check s 1 _ _,
    noOp_of_check s 2 _ _, noOp_of_check s 4 _ _, noOp_of_check s 4 _ _,
    noOp_of_check s 8 _ _, noOp_of_check s 8 _ _, ?_, ?_, ?_, ?_⟩
  · unfold ReadBuf; dsimp only
    split_ifs with h1 h2
    · exact noOp_of_check (α := List Nat) s n [] s |> fun h => by simpa [h1] using h
    · have := noOp_of_check s n (slice s.m_Buffer s.m_ReadPos (s.m_BufferSize - s.m_ReadPos) ++
        slice s.m_Buffer 0 (n - (s.m_BufferSize - s.m_ReadPos)))
        { s with m_ReadPos := 0 + (n - (s.m_BufferSize - s.m_ReadPos)) }
      simpa [h1] using this
    · have := noOp_of_check s n (slice s.m_Buffer s.m_ReadPos n)
        { s with m_ReadPos := s.m_ReadPos + n }
      simpa [h1] using this
  · unfold NoOpWhenShort
    by_cases h : n ≤ GetReadableSpace s
    · have hne := ReadString_ne_none s n h
      exact ⟨⟨fun e => absurd e hne, fun e => absurd h (by omega)⟩, fun e => absurd e hne⟩
    · rw [ReadString_fail s n (by omega)]
      exact ⟨⟨fun _ => by omega, fun _ => rfl⟩, fun _ => ⟨rfl, rfl⟩⟩
  · unfold SkipRead CanReadBytes
    by_cases h : n ≤ GetReadableSpace s
    · simp [h]
    · simp [h]; omega
  · unfold SkipRead CanReadBytes
    by_cases h : n ≤ GetReadableSpace s
    · simp [h]
    · simp [h]

/-- C5. Rollback idempotence: in every ring state with no read pending (`m_ReadPos` equal to
`m_DataStart`), after any sequence of read calls, successful or failed, `ResetRead` gives back
the state before the sequence; so `GetReadableSpace` is the same and every later read call
returns what it would have returned before the sequence. -/
theorem ResetRead_rollback (RawBEToUTF8 : List Nat → Int → List Nat) (s : cByteBuffer)
    (calls : List ReadCall) (h : s.m_ReadPos = s.m_DataStart) :
    ResetRead (runReads RawBEToUTF8 s calls) = s ∧
      GetReadableSpace (ResetRead (runReads RawBEToUTF8 s calls)) = GetReadableSpace s ∧
      ∀ c : ReadCall, ReadCall.run RawBEToUTF8 (ResetRead (runReads RawBEToUTF8 s calls)) c =
        ReadCall.run RawBEToUTF8 s c := by
  have hs := ResetRead_of_frame (runReads_frame RawBEToUTF8 calls s) h
  refine ⟨hs, ?_, ?_⟩
  · rw [hs]
  · intro c; rw [hs]

/-- C5 on a concrete ring: ten bytes written, then a mixed run of successful and failed reads. -/
theorem ResetRead_rollback_witness :
    (Write (new 15 zeroed) [0, 1, 2, 3, 4, 5, 6, 7, 8, 9] 10).2.m_ReadPos =
        (Write (new 15 zeroed) [0, 1, 2, 3, 4, 5, 6, 7, 8, 9] 10).2.m_DataStart ∧
      ResetRead (runReads rawBytes (Write (new 15 zeroed) [0, 1, 2, 3, 4, 5, 6, 7, 8, 9] 10).2
        [ReadCall.readBEShort, ReadCall.readChar, ReadCall.readBuf 100, ReadCall.readBuf 3,
          ReadCall.readAll]) =
        (Write (new 15 zeroed) [0, 1, 2, 3, 4, 5, 6, 7, 8, 9] 10).2 :=
  ⟨by decide,
    (ResetRead_rollback rawBytes (Write (new 15 zeroed) [0, 1, 2, 3, 4, 5, 6, 7, 8, 9] 10).2
      [ReadCall.readBEShort, ReadCall.readChar, ReadCall.readBuf 100, ReadCall.readBuf 3,
        ReadCall.readAll] (by decide)).1⟩

/-- C9. Capacity invariant: a freshly constructed ring and the ring after every operation
(`Write`, every reader, `SkipRead`, `ReadAll`, `CommitRead`, `ResetRead`, `AdvanceReadPos`), and
after every sequence of them, has `GetFreeSpace + GetUsedSpace` equal to the fixed storage size
`m_BufferSize`, which for a ring constructed with `C` usable bytes is `C + 1`. -/
theorem capacity_invariant (RawBEToUTF8 : List Nat → Int → List Nat) :
    (∀ (C : Int) (junk : Nat → Nat),
        GetFreeSpace (new C junk) + GetUsedSpace (new C junk) = C + 1) ∧
      (∀ (s : cByteBuffer) (c : Call),
        GetFreeSpace (Call.exec RawBEToUTF8 s c) + GetUsedSpace (Call.exec RawBEToUTF8 s c) =
          s.m_BufferSize) ∧
      (∀ (C : Int) (junk : Nat → Nat) (calls : List Call),
        GetFreeSpace (execAll RawBEToUTF8 (new C junk) calls) +
          GetUsedSpace (execAll RawBEToUTF8 (new C junk) calls) = C + 1) := by
  refine ⟨?_, ?_, ?_⟩
  · intro C junk
    unfold GetUsedSpace
    simp [new]
  · intro s c
    unfold GetUsedSpace
    rw [Call_exec_size]
    omega
  · intro C junk calls
    unfold GetUsedSpace
    rw [execAll_size]
    simp [new]

/-! ## Memory lemmas -/

theorem getElem?_slice (mem : List Nat) (p n : Int) (i : Nat) :
    (slice mem p n)[i]? = if i < n.toNat then mem[p.toNat + i]? else none := by
  unfold slice
  rw [List.getElem?_take, List.getElem?_drop]

theorem length_slice (mem : List Nat) (p n : Int) :
    (slice mem p n).length = min n.toNat (mem.length - p.toNat) := by
  unfold slice
  simp

theorem length_store (mem : List Nat) (p : Int) (src : List Nat)
    (h : p.toNat + src.length ≤ mem.length) : (store mem p src).length = mem.length := by
  unfold store
  simp
  omega

theorem getElem?_store (mem : List Nat) (p : Int) (src : List Nat) (j : Nat)
    (h : p.toNat + src.length ≤ mem.length) :
    (store mem p src)[j]? =
      if j < p.toNat then mem[j]? else if j < p.toNat + src.length then src[j - p.toNat]?
      else mem[j]? := by
  unfold store
  have hl : (List.take p.toNat mem).length = p.toNat := by simp; omega
  by_cases h1 : j < p.toNat
  · rw [List.append_assoc, List.getElem?_append_left (by omega)]
    simp [h1, List.getElem?_take]
  · by_cases h2 : j < p.toNat + src.length
    · rw [List.getElem?_append_left (by simp; omega), List.getElem?_append_right (by omega)]
      simp [h1, h2, hl]
    · rw [List.getElem?_append_right (by simp; omega)]
      simp [h1, h2, hl, List.getElem?_drop]
      congr 1
      omega

/-! ## What a successful `Write` does to the storage -/

theorem phys_lt (size p : Int) (k : Nat) (hp : 0 ≤ p) (h : p + k < size) :
    phys size p k = p.toNat + k := by
  unfold phys; rw [if_pos h]; omega

theorem phys_ge (size p : Int) (k : Nat) (hp : 0 ≤ p) (hs : 0 ≤ size) (h : ¬ p + k < size) :
    phys size p k = p.toNat + k - size.toNat := by
  unfold phys; rw [if_neg h]; omega

theorem GetFreeSpace_le (s : cByteBuffer)
    (hds1 : s.m_DataStart ≤ s.m_BufferSize)
    (hwp0 : 0 ≤ s.m_WritePos) :
    GetFreeSpace s ≤ s.m_BufferSize - 1 ∧
      (s.m_WritePos < s.m_DataStart → GetFreeSpace s < s.m_BufferSize - s.m_WritePos) ∧
      (s.m_DataStart ≤ s.m_WritePos →
        GetFreeSpace s - (s.m_BufferSize - s.m_WritePos) < s.m_DataStart) := by
  unfold GetFreeSpace
  split_ifs <;> omega

/-- A `Write` that fits: it succeeds, moves only the write cursor and the storage, lays the
bytes down from the write cursor on (wrapping), and leaves every other byte of storage alone. -/
theorem Write_ok (s : cByteBuffer) (bytes : List Nat)
    (hlen : (s.m_Buffer.length : Int) = s.m_BufferSize)
    (hds1 : s.m_DataStart ≤ s.m_BufferSize)
    (hwp0 : 0 ≤ s.m_WritePos) (hwp1 : s.m_WritePos ≤ s.m_BufferSize)
    (hfree : (bytes.length : Int) ≤ GetFreeSpace s) :
    (Write s bytes bytes.length).1 = true ∧
      (Write s bytes bytes.length).2.m_ReadPos = s.m_ReadPos ∧
      (Write s bytes bytes.length).2.m_DataStart = s.m_DataStart ∧
      (Write s bytes bytes.length).2.m_BufferSize = s.m_BufferSize ∧
      (Write s bytes bytes.length).2.m_WritePos =
        (if s.m_BufferSize - s.m_WritePos < bytes.length
          then s.m_WritePos + bytes.length - s.m_BufferSize
          else s.m_WritePos + bytes.length) ∧
      ((Write s bytes bytes.length).2.m_Buffer.length : Int) = s.m_BufferSize ∧
      (∀ i : Nat, i < bytes.length →
        (Write s bytes bytes.length).2.m_Buffer[phys s.m_BufferSize s.m_WritePos i]? =
          bytes[i]?) ∧
      (∀ j : Nat, (∀ i : Nat, i < bytes.length → j ≠ phys s.m_BufferSize s.m_WritePos i) →
        (Write s bytes bytes.length).2.m_Buffer[j]? = s.m_Buffer[j]?) := by
  obtain ⟨hf1, hf2, hf3⟩ := GetFreeSpace_le s hds1 hwp0
  have hnf : ¬ GetFreeSpace s < (bytes.length : Int) := by omega
  unfold Write
  dsimp only
  rw [if_neg hnf]
  by_cases hw : s.m_BufferSize - s.m_WritePos < (bytes.length : Int)
  · rw [if_pos hw, if_pos hw]
    have hl1 : (slice bytes 0 (s.m_BufferSize - s.m_WritePos)).length =
        (s.m_BufferSize - s.m_WritePos).toNat := by
      rw [length_slice]; simp; omega
    have hl2 : (slice (List.drop (s.m_BufferSize - s.m_WritePos).toNat bytes) 0
        ((bytes.length : Int) - (s.m_BufferSize - s.m_WritePos))).length =
        bytes.length - (s.m_BufferSize - s.m_WritePos).toNat := by
      rw [length_slice]; simp; omega
    have hs1 : s.m_WritePos.toNat + (slice bytes 0 (s.m_BufferSize - s.m_WritePos)).length ≤
        s.m_Buffer.length := by rw [hl1]; omega
    have hb1 := length_store s.m_Buffer s.m_WritePos _ hs1
    have hs2 : (0 : Int).toNat + (slice (List.drop (s.m_BufferSize - s.m_WritePos).toNat bytes) 0
        ((bytes.length : Int) - (s.m_BufferSize - s.m_WritePos))).length ≤
        (store s.m_Buffer s.m_WritePos (slice bytes 0 (s.m_BufferSize - s.m_WritePos))).length := by
      rw [hl2, hb1]; simp; omega
    have hb2 := length_store _ 0 _ hs2
    refine ⟨rfl, rfl, rfl, rfl, by simp only; omega, by simp only; omega, ?_, ?_⟩
    · intro i hi
      simp only
      rw [getElem?_store _ _ _ _ hs2, hl2]
      by_cases hp : s.m_WritePos + (i : Int) < s.m_BufferSize
      · rw [phys_lt _ _ _ hwp0 hp, if_neg (by simp), if_neg (by simp; omega),
          getElem?_store _ _ _ _ hs1, hl1, if_neg (by omega), if_pos (by omega),
          getElem?_slice, if_pos (by omega)]
        congr 1; simp
      · rw [phys_ge _ _ _ hwp0 (by omega) hp, if_neg (by simp), if_pos (by simp; omega),
          getElem?_slice, if_pos (by simp; omega), List.getElem?_drop]
        congr 1; simp; omega
    · intro j hj
      simp only
      rw [getElem?_store _ _ _ _ hs2, hl2, if_neg (by simp)]
      split_ifs with h3
      · exfalso
        simp at h3
        apply hj (j + (s.m_BufferSize - s.m_WritePos).toNat) (by omega)
        rw [phys_ge _ _ _ hwp0 (by omega) (by omega)]
        omega
      · rw [getElem?_store _ _ _ _ hs1, hl1]
        split_ifs with h4 h5
        · rfl
        · exfalso
          apply hj (j - s.m_WritePos.toNat) (by omega)
          rw [phys_lt _ _ _ hwp0 (by omega)]
          omega
        · rfl
  · rw [if_neg hw, if_neg hw]
    have hl1 : (slice bytes 0 (bytes.length : Int)).length = bytes.length := by
      rw [length_slice]; simp
    have hs1 : s.m_WritePos.toNat + (slice bytes 0 (bytes.length : Int)).length ≤
        s.m_Buffer.length := by rw [hl1]; omega
    have hb1 := length_store s.m_Buffer s.m_WritePos _ hs1
    refine ⟨rfl, rfl, rfl, rfl, rfl, by simp only; omega, ?_, ?_⟩
    · intro i hi
      simp only
      rw [getElem?_store _ _ _ _ hs1, hl1, phys_lt _ _ _ hwp0 (by omega),
        if_neg (by omega), if_pos (by omega), getElem?_slice, if_pos (by simpa using hi)]
      congr 1; simp
    · intro j hj
      simp only
      rw [getElem?_store _ _ _ _ hs1, hl1]
      split_ifs with h4 h5
      · rfl
      · exfalso
        apply hj (j - s.m_WritePos.toNat) (by omega)
        rw [phys_lt _ _ _ hwp0 (by omega)]
        omega
      · rfl

/-! ## What a successful read does -/

/-- With a non-negative count and the read cursor inside the storage `ReadString` throws
nothing and does what `ReadBuf` does. -/
theorem ReadString_of_valid (s : cByteBuffer) (n : Int) (hn : 0 ≤ n)
    (hr : s.m_ReadPos ≤ s.m_BufferSize) :
    ReadString s n = ((ReadBuf s n).1.map some, (ReadBuf s n).2) := by
  unfold ReadString ReadBuf
  dsimp only
  split_ifs <;> first | rfl | omega

theorem SkipRead_eq_ReadBuf (s : cByteBuffer) (n : Int) :
    (SkipRead s n).1 = (ReadBuf s n).1.isSome ∧ (SkipRead s n).2 = (ReadBuf s n).2 := by
  unfold SkipRead ReadBuf AdvanceReadPos
  dsimp only
  split_ifs with h1 h2 h3 h3
  · exact ⟨rfl, rfl⟩
  · refine ⟨rfl, ?_⟩
    simp only [cByteBuffer.mk.injEq, true_and]; omega
  · omega
  · omega
  · exact ⟨rfl, rfl⟩

/-- A read of `n` readable bytes: it succeeds, hands back the `n` bytes that follow the read
cursor in the ring, and moves the read cursor past them (wrapping). -/
theorem ReadBuf_ok (s : cByteBuffer) (n : Nat)
    (hlen : (s.m_Buffer.length : Int) = s.m_BufferSize)
    (hrp0 : 0 ≤ s.m_ReadPos) (hrp1 : s.m_ReadPos ≤ s.m_BufferSize)
    (hwp0 : 0 ≤ s.m_WritePos) (hwp1 : s.m_WritePos ≤ s.m_BufferSize)
    (hn : (n : Int) ≤ GetReadableSpace s) :
    ∃ bs : List Nat, (ReadBuf s n).1 = some bs ∧ bs.length = n ∧
      (∀ i : Nat, i < n → bs[i]? = s.m_Buffer[phys s.m_BufferSize s.m_ReadPos i]?) ∧
      (ReadBuf s n).2 = { s with m_ReadPos :=
        if s.m_BufferSize - s.m_ReadPos < n then s.m_ReadPos + n - s.m_BufferSize
        else s.m_ReadPos + n } := by
  have hr : GetReadableSpace s ≤ s.m_BufferSize := by
    unfold GetReadableSpace; split_ifs <;> omega
  unfold ReadBuf CanReadBytes
  dsimp only
  rw [if_neg (by simpa using hn)]
  by_cases hw : s.m_BufferSize - s.m_ReadPos < (n : Int)
  · rw [if_pos hw, if_pos hw]
    have hl1 : (slice s.m_Buffer s.m_ReadPos (s.m_BufferSize - s.m_ReadPos)).length =
        (s.m_BufferSize - s.m_ReadPos).toNat := by
      rw [length_slice]; omega
    have hl2 : (slice s.m_Buffer 0 ((n : Int) - (s.m_BufferSize - s.m_ReadPos))).length =
        n - (s.m_BufferSize - s.m_ReadPos).toNat := by
      rw [length_slice]; simp; omega
    refine ⟨_, rfl, ?_, ?_, ?_⟩
    · rw [List.length_append, hl1, hl2]; omega
    · intro i hi
      rw [List.getElem?_append, hl1]
      by_cases hp : s.m_ReadPos + (i : Int) < s.m_BufferSize
      · rw [phys_lt _ _ _ hrp0 hp, if_pos (by omega), getElem?_slice, if_pos (by omega)]
      · rw [phys_ge _ _ _ hrp0 (by omega) hp, if_neg (by omega), getElem?_slice,
          if_pos (by omega)]
        congr 1; simp; omega
    · simp only [cByteBuffer.mk.injEq, true_and]; omega
  · rw [if_neg hw, if_neg hw]
    refine ⟨_, rfl, ?_, ?_, rfl⟩
    · rw [length_slice]; simp; omega
    · intro i hi
      rw [getElem?_slice, if_pos (by simpa using hi), phys_lt _ _ _ hrp0 (by omega)]

/-! ## The invariant of the runs -/

theorem Inv_start (C : Int) (junk : Nat → Nat) (hC : 0 ≤ C) : Inv (Trace.start C junk) := by
  refine ⟨?_, ?_, ?_, ?_, ?_, ?_, ?_, ?_, ?_, ?_, ?_, ?_, ?_⟩ <;>
    simp [Trace.start, new, Trace.liveBytes] <;> omega

theorem Inv_free {t : Trace} (h : Inv t) :
    GetFreeSpace t.st = t.st.m_BufferSize - t.liveBytes - 1 := by
  have h1 := h.live
  have h2 := h.room
  have h3 := h.ds_lo
  have h4 := h.wp_hi
  unfold GetFreeSpace
  split_ifs <;> omega

theorem Inv_readable {t : Trace} (h : Inv t) :
    GetReadableSpace t.st = t.liveBytes - t.pending := by
  have h1 := h.unread
  have h2 := h.room
  have h3 := h.rp_lo
  have h4 := h.wp_hi
  have h5 := h.consumed
  unfold Trace.liveBytes at *
  unfold GetReadableSpace
  split_ifs <;> omega

theorem Inv_phys {t : Trace} (h : Inv t) (i : Nat)
    (hi : t.committed + t.pending + i < t.written.length) :
    phys t.st.m_BufferSize t.st.m_ReadPos i =
      phys t.st.m_BufferSize t.st.m_DataStart (t.pending + i) := by
  obtain ⟨h0, _, h1, h2, h3, h4, h5, h6, h7, h8, h9, h10, _⟩ := h
  unfold Trace.liveBytes at *
  unfold phys
  push_cast
  split_ifs <;> omega

/-- Under the invariant a read of `n` readable bytes returns the next `n` bytes of the written
stream, and the invariant holds afterwards with `n` more bytes pending. -/
theorem Inv_read {t : Trace} (h : Inv t) (n : Nat) (hn : (n : Int) ≤ GetReadableSpace t.st)
    (ro : List Nat) :
    (ReadBuf t.st n).1 = some ((t.written.drop (t.committed + t.pending)).take n) ∧
      Inv { st := (ReadBuf t.st n).2, written := t.written, readOut := ro,
            committed := t.committed, pending := t.pending + n } := by
  obtain ⟨bs, hbs, hl, hpt, hst⟩ := ReadBuf_ok t.st n h.len h.rp_lo h.rp_hi h.wp_lo h.wp_hi hn
  have hr := Inv_readable h
  have hc := h.consumed
  unfold Trace.liveBytes at hr
  constructor
  · rw [hbs]
    congr 1
    apply List.ext_getElem?
    intro i
    rw [List.getElem?_take, List.getElem?_drop]
    by_cases hi : i < n
    · rw [hpt i hi, Inv_phys h i (by omega), h.content (t.pending + i) (by omega), if_pos hi]
      congr 1; omega
    · rw [if_neg hi, List.getElem?_eq_none (by omega)]
  · rw [hst]
    obtain ⟨h0, h00, h1, h2, h3, h4, h5, h6, h7, h8, h9, h10, h11⟩ := h
    unfold Trace.liveBytes at *
    refine ⟨h0, h00, h1, h2, ?_, ?_, h5, h6, ?_, h8, h9, ?_, h11⟩
    · simp only; split_ifs <;> omega
    · simp only; split_ifs <;> omega
    · simp only; omega
    · simp only [Trace.liveBytes]; push_cast; split_ifs <;> omega

/-- Under the invariant a `Write` that fits succeeds and the invariant holds afterwards with the
bytes appended to the written stream. -/
theorem Inv_write {t : Trace} (h : Inv t) (bytes : List Nat)
    (hfit : (bytes.length : Int) ≤ GetFreeSpace t.st) (ro : List Nat) :
    (Write t.st bytes bytes.length).1 = true ∧
      Inv { st := (Write t.st bytes bytes.length).2, written := t.written ++ bytes,
            readOut := ro, committed := t.committed, pending := t.pending } := by
  obtain ⟨hok, hrp, hds, hsz, hwp, hlen, hnew, hold⟩ :=
    Write_ok t.st bytes h.len h.ds_hi h.wp_lo h.wp_hi hfit
  have hf := Inv_free h
  refine ⟨hok, ?_⟩
  obtain ⟨h0, h00, h1, h2, h3, h4, h5, h6, h7, h8, h9, h10, h11⟩ := h
  unfold Trace.liveBytes at *
  refine ⟨?_, ?_, ?_, ?_, ?_, ?_, ?_, ?_, ?_, ?_, ?_, ?_, ?_⟩
  · simp only; omega
  · simp only; omega
  · simp only; omega
  · simp only; omega
  · simp only; omega
  · simp only; omega
  · simp only; rw [hwp]; split_ifs <;> omega
  · simp only; rw [hwp]; split_ifs <;> omega
  · simp only [List.length_append]; omega
  · simp only [Trace.liveBytes, List.length_append]; push_cast; omega
  · simp only [Trace.liveBytes, List.length_append]; push_cast; rw [hwp, hds, hsz]; split_ifs <;> omega
  · simp only [Trace.liveBytes, List.length_append]; push_cast; rw [hwp, hrp, hsz]; split_ifs <;> omega
  · intro k hk
    simp only [List.length_append] at hk
    simp only
    rw [hsz, hds]
    by_cases hkw : t.committed + k < t.written.length
    · rw [List.getElem?_append_left hkw, ← h11 k hkw]
      apply hold
      intro i hi heq
      unfold phys at heq
      split_ifs at heq <;> omega
    · rw [List.getElem?_append_right (by omega),
        ← hnew (t.committed + k - t.written.length) (by omega)]
      congr 1
      unfold phys
      split_ifs <;> omega

theorem Write_fail (s : cByteBuffer) (bytes : List Nat) (n : Int) (h : GetFreeSpace s < n) :
    Write s bytes n = (false, s) := by
  unfold Write; rw [if_pos h]

theorem ReadBuf_fail (s : cByteBuffer) (n : Int) (h : GetReadableSpace s < n) :
    ReadBuf s n = (none, s) := by
  unfold ReadBuf CanReadBytes
  rw [if_pos (by simpa using h)]

theorem step_write_ok {t : Trace} (h : Inv t) (bytes : List Nat)
    (hfit : (bytes.length : Int) ≤ GetFreeSpace t.st) :
    t.step (Op.write bytes) =
      { t with st := (Write t.st bytes bytes.length).2, written := t.written ++ bytes } := by
  simp only [Trace.step]
  rw [if_pos (Inv_write h bytes hfit []).1]

theorem step_write_fail (t : Trace) (bytes : List Nat)
    (hfit : GetFreeSpace t.st < (bytes.length : Int)) : t.step (Op.write bytes) = t := by
  simp only [Trace.step]
  rw [Write_fail _ _ _ hfit]
  rfl

theorem step_readBuf_ok {t : Trace} (h : Inv t) (n : Nat)
    (hn : (n : Int) ≤ GetReadableSpace t.st) :
    t.step (Op.readBuf n) =
      { t with st := (ReadBuf t.st n).2,
               readOut := t.readOut ++ (t.written.drop (t.committed + t.pending)).take n,
               pending := t.pending + n } := by
  simp only [Trace.step]
  rw [(Inv_read h n hn []).1]

theorem step_readBuf_fail (t : Trace) (n : Nat) (hn : GetReadableSpace t.st < (n : Int)) :
    t.step (Op.readBuf n) = t := by
  simp only [Trace.step]
  rw [ReadBuf_fail _ _ hn]

theorem step_readString {t : Trace} (h : Inv t) (n : Nat) :
    t.step (Op.readString n) = t.step (Op.readBuf n) := by
  simp only [Trace.step, ReadString_of_valid t.st n (Int.ofNat_nonneg n) h.rp_hi]
  generalize (ReadBuf t.st n).1 = r
  cases r <;> rfl

theorem step_skipRead_ok (t : Trace) (n : Nat) (hn : (n : Int) ≤ GetReadableSpace t.st) :
    t.step (Op.skipRead n) = { t with st := (ReadBuf t.st n).2, pending := t.pending + n } := by
  have h1 := (SkipRead_eq_ReadBuf t.st n).1
  have h2 := (SkipRead_eq_ReadBuf t.st n).2
  have h3 : (ReadBuf t.st n).1.isSome = true := by
    unfold ReadBuf CanReadBytes
    dsimp only
    rw [if_neg (by simpa using hn)]
    split_ifs <;> rfl
  simp only [Trace.step]
  rw [h1, h2, h3]
  rfl

theorem step_skipRead_fail (t : Trace) (n : Nat) (hn : GetReadableSpace t.st < (n : Int)) :
    t.step (Op.skipRead n) = t := by
  have h1 := (SkipRead_eq_ReadBuf t.st n).1
  have h2 := (SkipRead_eq_ReadBuf t.st n).2
  simp only [Trace.step]
  rw [h1, h2, ReadBuf_fail _ _ hn]
  rfl

/-- Under the invariant `ReadAll` throws nothing: it hands back every unread byte of the
written stream and leaves the object that `ReadBuf` of the readable space leaves. -/
theorem ReadAll_of_Inv {t : Trace} (h : Inv t) :
    ReadAll t.st = (some (t.written.drop (t.committed + t.pending)),
      (ReadBuf t.st (GetReadableSpace t.st)).2) := by
  have hr := Inv_readable h
  have hc := h.consumed
  unfold Trace.liveBytes at hr
  have hn : (((GetReadableSpace t.st).toNat : Nat) : Int) = GetReadableSpace t.st := by omega
  have hrb := (Inv_read h (GetReadableSpace t.st).toNat (by omega) []).1
  rw [hn] at hrb
  have hall : List.take (GetReadableSpace t.st).toNat
      (List.drop (t.committed + t.pending) t.written) =
      List.drop (t.committed + t.pending) t.written := by
    apply List.take_of_length_le
    rw [List.length_drop]; omega
  unfold ReadAll
  simp only [ReadString_of_valid t.st _ (by omega : 0 ≤ GetReadableSpace t.st) h.rp_hi, hrb,
    Option.map_some', hall]

theorem step_readAll {t : Trace} (h : Inv t) :
    t.step Op.readAll = t.step (Op.readBuf (GetReadableSpace t.st).toNat) := by
  have hr := Inv_readable h
  have hc := h.consumed
  unfold Trace.liveBytes at hr
  have hn : (((GetReadableSpace t.st).toNat : Nat) : Int) = GetReadableSpace t.st := by omega
  rw [step_readBuf_ok h _ (by omega)]
  simp only [Trace.step, ReadAll_of_Inv h, hn, List.length_drop]
  have hall : List.take (GetReadableSpace t.st).toNat
      (List.drop (t.committed + t.pending) t.written) =
      List.drop (t.committed + t.pending) t.written := by
    apply List.take_of_length_le
    rw [List.length_drop]; omega
  rw [hall]
  congr 1
  omega

/-- The invariant is kept by every call of a run. -/
theorem Inv_step {t : Trace} (h : Inv t) (op : Op) : Inv (t.step op) := by
  have hread : ∀ n : Nat, Inv (t.step (Op.readBuf n)) := by
    intro n
    by_cases hn : (n : Int) ≤ GetReadableSpace t.st
    · rw [step_readBuf_ok h n hn]; exact (Inv_read h n hn _).2
    · rw [step_readBuf_fail t n (by omega)]; exact h
  cases op with
  | write bytes =>
    by_cases hfit : (bytes.length : Int) ≤ GetFreeSpace t.st
    · rw [step_write_ok h bytes hfit]; exact (Inv_write h bytes hfit _).2
    · rw [step_write_fail t bytes (by omega)]; exact h
  | readBuf n => exact hread n
  | readString n => rw [step_readString h]; exact hread n
  | skipRead n =>
    by_cases hn : (n : Int) ≤ GetReadableSpace t.st
    · rw [step_skipRead_ok t n hn]; exact (Inv_read h n hn _).2
    · rw [step_skipRead_fail t n (by omega)]; exact h
  | readAll => rw [step_readAll h]; exact hread _
  | commitRead =>
    obtain ⟨h0, h00, h1, h2, h3, h4, h5, h6, h7, h8, h9, h10, h11⟩ := h
    unfold Trace.liveBytes at *
    refine ⟨h0, h00, h3, h4, h3, h4, h5, h6, ?_, ?_, ?_, ?_, ?_⟩
    · simp only [Trace.step]; omega
    · simp only [Trace.step, Trace.liveBytes, CommitRead]; push_cast; omega
    · simp only [Trace.step, Trace.liveBytes, CommitRead]; push_cast; omega
    · simp only [Trace.step, Trace.liveBytes, CommitRead]; push_cast; omega
    · intro k hk
      simp only [Trace.step] at hk
      simp only [Trace.step, CommitRead]
      have hc := h11 (t.pending + k) (by omega)
      have hp : phys t.st.m_BufferSize t.st.m_ReadPos k =
          phys t.st.m_BufferSize t.st.m_DataStart (t.pending + k) := by
        unfold phys; push_cast; split_ifs <;> omega
      rw [hp, hc]
      congr 1; omega
  | resetRead =>
    obtain ⟨h0, h00, h1, h2, h3, h4, h5, h6, h7, h8, h9, h10, h11⟩ := h
    unfold Trace.liveBytes at *
    refine ⟨h0, h00, h1, h2, h1, h2, h5, h6, ?_, ?_, ?_, ?_, h11⟩
    · simp only [Trace.step]; omega
    · simp only [Trace.step, Trace.liveBytes, ResetRead]; omega
    · simp only [Trace.step, Trace.liveBytes, ResetRead]; omega
    · simp only [Trace.step, Trace.liveBytes, ResetRead]; push_cast; omega

theorem Inv_run (ops : List Op) : ∀ {t : Trace}, Inv t → Inv (t.run ops) := by
  induction ops with
  | nil => intro t h; exact h
  | cons op ops ih => intro t h; exact ih (Inv_step h op)

theorem Write_size (s : cByteBuffer) (bytes : List Nat) (n : Int) :
    (Write s bytes n).2.m_BufferSize = s.m_BufferSize := by
  unfold Write; dsimp only; split_ifs <;> rfl

theorem step_size (t : Trace) (op : Op) : (t.step op).st.m_BufferSize = t.st.m_BufferSize := by
  cases op with
  | write bytes => simp only [Trace.step]; split <;> exact Write_size _ _ _
  | readBuf n => simp only [Trace.step]; split <;> exact (ReadBuf_frame _ _).2.1
  | readString n => simp only [Trace.step]; split <;> exact (ReadString_frame _ _).2.1
  | skipRead n =>
    simp only [Trace.step]
    split <;> (rw [(SkipRead_eq_ReadBuf _ _).2]; exact (ReadBuf_frame _ _).2.1)
  | readAll => simp only [Trace.step]; split <;> exact (ReadString_frame _ _).2.1
  | commitRead => rfl
  | resetRead => rfl

theorem run_size (ops : List Op) :
    ∀ t : Trace, (t.run ops).st.m_BufferSize = t.st.m_BufferSize := by
  induction ops with
  | nil => intro t; rfl
  | cons op ops ih =>
    intro t
    show ((t.step op).run ops).st.m_BufferSize = t.st.m_BufferSize
    rw [ih, step_size]

/-- What was read so far is the consumed part of what was written; kept by the
first-in-first-out calls. -/
theorem fifo_step {t : Trace} (h : Inv t)
    (hro : t.readOut = t.written.take (t.committed + t.pending)) (op : FifoOp) :
    (t.step op.toOp).readOut =
      (t.step op.toOp).written.take ((t.step op.toOp).committed + (t.step op.toOp).pending) := by
  have hc := h.consumed
  cases op with
  | write bytes =>
    simp only [FifoOp.toOp]
    by_cases hfit : (bytes.length : Int) ≤ GetFreeSpace t.st
    · rw [step_write_ok h bytes hfit]
      simp only
      rw [List.take_append_of_le_length hc]
      exact hro
    · rw [step_write_fail t bytes (by omega)]; exact hro
  | readBuf n =>
    simp only [FifoOp.toOp]
    by_cases hn : (n : Int) ≤ GetReadableSpace t.st
    · rw [step_readBuf_ok h n hn]
      simp only
      rw [hro, ← Nat.add_assoc]
      exact (List.take_add _ _ _).symm
    · rw [step_readBuf_fail t n (by omega)]; exact hro
  | commitRead =>
    simp only [FifoOp.toOp, Trace.step]
    rw [hro]; rfl

theorem fifo_run (ops : List FifoOp) : ∀ {t : Trace}, Inv t →
    t.readOut = t.written.take (t.committed + t.pending) →
    (t.run (ops.map FifoOp.toOp)).readOut =
      (t.run (ops.map FifoOp.toOp)).written.take
        ((t.run (ops.map FifoOp.toOp)).committed + (t.run (ops.map FifoOp.toOp)).pending) := by
  induction ops with
  | nil => intro t _ hro; exact hro
  | cons op ops ih => intro t h hro; exact ih (Inv_step h op.toOp) (fifo_step h hro op)

/-! ## The claims about runs from a fresh ring -/

/-- C1. Wrap correctness (first in, first out): for every ring created with usable capacity
`C ≥ 1` and every sequence of `Write`, `ReadBuf` and `CommitRead` calls with non-negative
counts, the bytes returned by the successful `ReadBuf` calls, concatenated, are a prefix of the
bytes accepted by the successful `Write` calls, concatenated; however often the cursors pass
the physical end of the storage. -/
theorem fifo_order (C : Int) (hC : 1 ≤ C) (junk : Nat → Nat) (ops : List FifoOp) :
    ((Trace.start C junk).run (ops.map FifoOp.toOp)).readOut <+:
      ((Trace.start C junk).run (ops.map FifoOp.toOp)).written := by
  have h := fifo_run ops (Inv_start C junk (by omega)) rfl
  rw [h]
  exact ⟨_, List.take_append_drop _ _⟩

/-- C1 on a ring of 3 usable bytes whose cursors pass the physical end several times. -/
theorem fifo_order_witness :
    (1 : Int) ≤ 3 ∧
      ((Trace.start 3 zeroed).run ([FifoOp.write [1, 2, 3], FifoOp.readBuf 2, FifoOp.commitRead,
        FifoOp.write [4, 5], FifoOp.readBuf 3, FifoOp.commitRead, FifoOp.write [6, 7, 8],
        FifoOp.write [9], FifoOp.readBuf 2].map FifoOp.toOp)).readOut = [1, 2, 3, 4, 5, 6, 7] ∧
      ((Trace.start 3 zeroed).run ([FifoOp.write [1, 2, 3], FifoOp.readBuf 2, FifoOp.commitRead,
        FifoOp.write [4, 5], FifoOp.readBuf 3, FifoOp.commitRead, FifoOp.write [6, 7, 8],
        FifoOp.write [9], FifoOp.readBuf 2].map FifoOp.toOp)).readOut <+:
      ((Trace.start 3 zeroed).run ([FifoOp.write [1, 2, 3], FifoOp.readBuf 2, FifoOp.commitRead,
        FifoOp.write [4, 5], FifoOp.readBuf 3, FifoOp.commitRead, FifoOp.write [6, 7, 8],
        FifoOp.write [9], FifoOp.readBuf 2].map FifoOp.toOp)).written :=
  ⟨by decide, by decide, fifo_order 3 (by decide) zeroed _⟩

/-! ## The length-prefixed string reader -/

theorem ReadBuf_readable (s : cByteBuffer) (n : Int) (hw : s.m_WritePos ≤ s.m_BufferSize)
    (h0 : 0 ≤ n) (hn : n ≤ GetReadableSpace s) :
    GetReadableSpace (ReadBuf s n).2 = GetReadableSpace s - n := by
  unfold ReadBuf CanReadBytes
  dsimp only
  rw [if_neg (by simpa using hn)]
  unfold GetReadableSpace at *
  split_ifs at hn ⊢ <;> simp only at * <;> omega

theorem ReadBEShort_short (s : cByteBuffer) (h : GetReadableSpace s < 2) :
    ReadBEShort s = (none, s) := by
  unfold ReadBEShort CanReadBytes
  rw [if_pos (by simpa using h)]

theorem ReadBEShort_long (s : cByteBuffer) (h : 2 ≤ GetReadableSpace s) :
    ReadBEShort s = (some (ntohs ((ReadBuf s 2).1.getD [])), (ReadBuf s 2).2) := by
  unfold ReadBEShort CanReadBytes
  rw [if_neg (by simpa using h)]

theorem ReadUTF16String_none (T : List Nat → Int → List Nat) (s : cByteBuffer) (n : Int)
    (h : (ReadUTF16String T s n).1 = none) :
    GetReadableSpace s < n * 2 ∧ (ReadUTF16String T s n).2 = s := by
  by_cases hn : n * 2 ≤ GetReadableSpace s
  · exfalso
    have hne := ReadString_ne_none s (n * 2) hn
    revert h hne
    unfold ReadUTF16String
    dsimp only
    generalize (ReadString s (n * 2)).1 = r
    intro h hne
    cases r with
    | none => exact hne rfl
    | some v => cases v <;> simp at h
  · refine ⟨by omega, ?_⟩
    rw [ReadUTF16String_state, ReadString_fail _ _ (by omega)]

theorem ResetRead_congr {s1 s2 : cByteBuffer} (h : ReadFrame s1 s2) :
    ResetRead s2 = ResetRead s1 := by
  obtain ⟨b1, z1, d1, w1, r1⟩ := s1
  obtain ⟨b2, z2, d2, w2, r2⟩ := s2
  obtain ⟨hb, hz, hd, hw⟩ := h
  simp only at hb hz hd hw
  subst hb hz hd hw
  rfl

/-- C4, the claim as stated fails: on a ring holding the prefix `0x0005` and only two further
bytes, `ReadBEUTF16String16` fails and the readable space has dropped from 4 to 2. -/
theorem ReadBEUTF16String16_fails_midway :
    (ReadBEUTF16String16 rawBytes (Write (new 15 zeroed) [0, 5, 1, 2] 4).2).1 = none ∧
      GetReadableSpace (Write (new 15 zeroed) [0, 5, 1, 2] 4).2 = 4 ∧
      GetReadableSpace (ReadBEUTF16String16 rawBytes (Write (new 15 zeroed) [0, 5, 1, 2] 4).2).2
        = 2 := by
  decide

/-- C4, amended. A failed `ReadBEUTF16String16` either found fewer than 2 readable bytes and
left the ring unchanged, or it read the 2-byte length prefix `N`, found fewer than `2N` bytes
after it, and left the ring as `ReadBEShort` left it: the prefix is consumed, the readable space
is 2 less (write cursor inside the storage), and commit point, write cursor and storage are
unchanged, so that `ResetRead` gives the ring that `ResetRead` before the call gives. -/
theorem ReadBEUTF16String16_failure (RawBEToUTF8 : List Nat → Int → List Nat) (s : cByteBuffer)
    (hw : s.m_WritePos ≤ s.m_BufferSize)
    (hfail : (ReadBEUTF16String16 RawBEToUTF8 s).1 = none) :
    (GetReadableSpace s < 2 ∧ (ReadBEUTF16String16 RawBEToUTF8 s).2 = s) ∨
      (2 ≤ GetReadableSpace s ∧
        (∃ N : Int, (ReadBEShort s).1 = some N ∧ GetReadableSpace (ReadBEShort s).2 < N * 2) ∧
        (ReadBEUTF16String16 RawBEToUTF8 s).2 = (ReadBEShort s).2 ∧
        GetReadableSpace (ReadBEUTF16String16 RawBEToUTF8 s).2 = GetReadableSpace s - 2 ∧
        ReadFrame s (ReadBEUTF16String16 RawBEToUTF8 s).2 ∧
        ResetRead (ReadBEUTF16String16 RawBEToUTF8 s).2 = ResetRead s) := by
  by_cases h2 : 2 ≤ GetReadableSpace s
  · right
    have hs := ReadBEShort_long s h2
    have hu : ReadBEUTF16String16 RawBEToUTF8 s =
        ReadUTF16String RawBEToUTF8 (ReadBuf s 2).2
          (ntohs ((ReadBuf s 2).1.getD [])) := by
      unfold ReadBEUTF16String16
      rw [hs]
    rw [hu] at hfail
    obtain ⟨hlt, hst⟩ := ReadUTF16String_none _ _ _ hfail
    rw [hu, hst, hs]
    exact ⟨h2, ⟨_, rfl, hlt⟩, rfl, ReadBuf_readable s 2 hw (by decide) h2, ReadBuf_frame s 2,
      ResetRead_congr (ReadBuf_frame s 2)⟩
  · left
    have hs := ReadBEShort_short s (by omega)
    refine ⟨by omega, ?_⟩
    unfold ReadBEUTF16String16
    rw [hs]

/-- C4 amended, on the ring of the counterexample: the failed call consumed the prefix only. -/
theorem ReadBEUTF16String16_failure_witness :
    (Write (new 15 zeroed) [0, 5, 1, 2] 4).2.m_WritePos ≤
        (Write (new 15 zeroed) [0, 5, 1, 2] 4).2.m_BufferSize ∧
      (ReadBEUTF16String16 rawBytes (Write (new 15 zeroed) [0, 5, 1, 2] 4).2).1 = none ∧
      ((GetReadableSpace (Write (new 15 zeroed) [0, 5, 1, 2] 4).2 < 2 ∧
          (ReadBEUTF16String16 rawBytes (Write (new 15 zeroed) [0, 5, 1, 2] 4).2).2 =
            (Write (new 15 zeroed) [0, 5, 1, 2] 4).2) ∨
        (2 ≤ GetReadableSpace (Write (new 15 zeroed) [0, 5, 1, 2] 4).2 ∧
          (∃ N : Int, (ReadBEShort (Write (new 15 zeroed) [0, 5, 1, 2] 4).2).1 = some N ∧
            GetReadableSpace (ReadBEShort (Write (new 15 zeroed) [0, 5, 1, 2] 4).2).2 < N * 2) ∧
          (ReadBEUTF16String16 rawBytes (Write (new 15 zeroed) [0, 5, 1, 2] 4).2).2 =
            (ReadBEShort (Write (new 15 zeroed) [0, 5, 1, 2] 4).2).2 ∧
          GetReadableSpace (ReadBEUTF16String16 rawBytes (Write (new 15 zeroed) [0, 5, 1, 2] 4).2).2
            = GetReadableSpace (Write (new 15 zeroed) [0, 5, 1, 2] 4).2 - 2 ∧
          ReadFrame (Write (new 15 zeroed) [0, 5, 1, 2] 4).2
            (ReadBEUTF16String16 rawBytes (Write (new 15 zeroed) [0, 5, 1, 2] 4).2).2 ∧
          ResetRead (ReadBEUTF16String16 rawBytes (Write (new 15 zeroed) [0, 5, 1, 2] 4).2).2 =
            ResetRead (Write (new 15 zeroed) [0, 5, 1, 2] 4).2)) :=
  ⟨by decide, by decide,
    ReadBEUTF16String16_failure rawBytes (Write (new 15 zeroed) [0, 5, 1, 2] 4).2
      (by decide) (by decide)⟩

/-! ## Commit finality, free space and used space along runs -/

theorem step_mono (t : Trace) (op : Op) :
    t.written <+: (t.step op).written ∧ t.committed ≤ (t.step op).committed := by
  cases op with
  | write bytes =>
    simp only [Trace.step]
    split
    · exact ⟨⟨bytes, rfl⟩, Nat.le_refl _⟩
    · exact ⟨⟨[], List.append_nil _⟩, Nat.le_refl _⟩
  | readBuf n =>
    simp only [Trace.step]
    split <;> exact ⟨⟨[], List.append_nil _⟩, Nat.le_refl _⟩
  | readString n =>
    simp only [Trace.step]
    split <;> exact ⟨⟨[], List.append_nil _⟩, Nat.le_refl _⟩
  | skipRead n =>
    simp only [Trace.step]
    split <;> exact ⟨⟨[], List.append_nil _⟩, Nat.le_refl _⟩
  | readAll =>
    simp only [Trace.step]
    split <;> exact ⟨⟨[], List.append_nil _⟩, Nat.le_refl _⟩
  | commitRead => exact ⟨⟨[], List.append_nil _⟩, Nat.le_add_right _ _⟩
  | resetRead => exact ⟨⟨[], List.append_nil _⟩, Nat.le_refl _⟩

theorem run_mono (ops : List Op) :
    ∀ t : Trace, t.written <+: (t.run ops).written ∧ t.committed ≤ (t.run ops).committed := by
  induction ops with
  | nil => intro t; exact ⟨⟨[], List.append_nil _⟩, Nat.le_refl _⟩
  | cons op ops ih =>
    intro t
    obtain ⟨⟨a, ha⟩, hc1⟩ := step_mono t op
    obtain ⟨⟨b, hb⟩, hc2⟩ := ih (t.step op)
    refine ⟨⟨a ++ b, ?_⟩, Nat.le_trans hc1 hc2⟩
    show t.written ++ (a ++ b) = ((t.step op).run ops).written
    rw [← hb, ← ha, List.append_assoc]

theorem run_append (ops1 ops2 : List Op) (t : Trace) :
    t.run (ops1 ++ ops2) = (t.run ops1).run ops2 := by
  unfold Trace.run
  rw [List.foldl_append]

/-- C6. Commit finality: in every ring state `ResetRead` after `CommitRead` changes nothing;
after a `CommitRead`, any further reads and a `ResetRead`, the ring, hence `GetReadableSpace`,
is as it was right after the `CommitRead`; and in a run from a fresh ring, whatever calls
follow a `CommitRead` (reads, rollbacks, writes, commits), a later successful `ReadBuf` returns
bytes of the written stream from an offset at or beyond the bytes committed by then, so the
bytes consumed before the `CommitRead` are not handed out again. -/
theorem commit_finality (RawBEToUTF8 : List Nat → Int → List Nat) (s : cByteBuffer)
    (reads : List ReadCall) (C : Int) (hC : 0 ≤ C) (junk : Nat → Nat) (ops1 ops2 : List Op)
    (n : Nat) :
    ResetRead (CommitRead s) = CommitRead s ∧
      ResetRead (runReads RawBEToUTF8 (CommitRead s) reads) = CommitRead s ∧
      GetReadableSpace (ResetRead (runReads RawBEToUTF8 (CommitRead s) reads)) =
        GetReadableSpace (CommitRead s) ∧
      ((Trace.start C junk).run (ops1 ++ [Op.commitRead])).written <+:
        (((Trace.start C junk).run (ops1 ++ [Op.commitRead])).run ops2).written ∧
      ((Trace.start C junk).run (ops1 ++ [Op.commitRead])).committed ≤
        (((Trace.start C junk).run (ops1 ++ [Op.commitRead])).run ops2).committed +
          (((Trace.start C junk).run (ops1 ++ [Op.commitRead])).run ops2).pending ∧
      ∀ bs : List Nat,
        (ReadBuf (((Trace.start C junk).run (ops1 ++ [Op.commitRead])).run ops2).st n).1 =
          some bs →
        bs = ((((Trace.start C junk).run (ops1 ++ [Op.commitRead])).run ops2).written.drop
          ((((Trace.start C junk).run (ops1 ++ [Op.commitRead])).run ops2).committed +
            (((Trace.start C junk).run (ops1 ++ [Op.commitRead])).run ops2).pending)).take n := by
  have hr := ResetRead_of_frame (runReads_frame RawBEToUTF8 reads (CommitRead s)) rfl
  have hm := run_mono ops2 ((Trace.start C junk).run (ops1 ++ [Op.commitRead]))
  have hinv := Inv_run ops2 (Inv_run (ops1 ++ [Op.commitRead]) (Inv_start C junk hC))
  refine ⟨rfl, hr, by rw [hr], hm.1, Nat.le_trans hm.2 (Nat.le_add_right _ _), ?_⟩
  intro bs hbs
  by_cases hn : (n : Int) ≤
      GetReadableSpace (((Trace.start C junk).run (ops1 ++ [Op.commitRead])).run ops2).st
  · rw [(Inv_read hinv n hn []).1] at hbs
    exact (Option.some.inj hbs).symm
  · rw [ReadBuf_fail _ _ (by omega)] at hbs
    exact absurd hbs (by simp)

/-- C6 on a concrete run: six bytes are read and committed, four more are read and rolled back;
the next read returns the four bytes after the committed ones, not the committed ones. -/
theorem commit_finality_witness :
    (0 : Int) ≤ 15 ∧
      (ReadBuf (((Trace.start 15 zeroed).run ([Op.write [0, 1, 2, 3, 4, 5, 6, 7, 8, 9],
        Op.readBuf 2, Op.readBuf 4] ++ [Op.commitRead])).run
          [Op.readBuf 4, Op.resetRead]).st (4 : Nat)).1 = some [6, 7, 8, 9] ∧
      ∀ bs : List Nat,
        (ReadBuf (((Trace.start 15 zeroed).run ([Op.write [0, 1, 2, 3, 4, 5, 6, 7, 8, 9],
          Op.readBuf 2, Op.readBuf 4] ++ [Op.commitRead])).run
            [Op.readBuf 4, Op.resetRead]).st (4 : Nat)).1 = some bs →
        bs = ((((Trace.start 15 zeroed).run ([Op.write [0, 1, 2, 3, 4, 5, 6, 7, 8, 9],
          Op.readBuf 2, Op.readBuf 4] ++ [Op.commitRead])).run
            [Op.readBuf 4, Op.resetRead]).written.drop
          ((((Trace.start 15 zeroed).run ([Op.write [0, 1, 2, 3, 4, 5, 6, 7, 8, 9],
            Op.readBuf 2, Op.readBuf 4] ++ [Op.commitRead])).run
              [Op.readBuf 4, Op.resetRead]).committed +
            (((Trace.start 15 zeroed).run ([Op.write [0, 1, 2, 3, 4, 5, 6, 7, 8, 9],
              Op.readBuf 2, Op.readBuf 4] ++ [Op.commitRead])).run
                [Op.readBuf 4, Op.resetRead]).pending)).take 4 :=
  ⟨by decide, by decide,
    (commit_finality rawBytes (new 15 zeroed) [] 15 (by decide) zeroed
      [Op.write [0, 1, 2, 3, 4, 5, 6, 7, 8, 9], Op.readBuf 2, Op.readBuf 4]
      [Op.readBuf 4, Op.resetRead] 4).2.2.2.2.2⟩

/-- C7. Free-space law: in every state of a run from a fresh ring of `C` usable bytes,
`GetFreeSpace` is capacity − liveBytes − 1, the capacity being the storage size `C + 1` and the
live bytes those accepted by `Write` and not yet committed; so a ring holding capacity − 1 live
bytes reports no free space, whatever the history of the cursors. -/
theorem free_space_law (C : Int) (hC : 0 ≤ C) (junk : Nat → Nat) (ops : List Op) :
    GetFreeSpace ((Trace.start C junk).run ops).st =
        (C + 1) - ((Trace.start C junk).run ops).liveBytes - 1 ∧
      (((Trace.start C junk).run ops).liveBytes = (C + 1) - 1 →
        GetFreeSpace ((Trace.start C junk).run ops).st = 0) := by
  have hinv := Inv_run ops (Inv_start C junk hC)
  have hf := Inv_free hinv
  have hs : ((Trace.start C junk).run ops).st.m_BufferSize = C + 1 := by
    rw [run_size]; rfl
  rw [hs] at hf
  exact ⟨hf, fun h => by rw [hf, h]; omega⟩

/-- C7 on the ring of the claim: 7 usable bytes, 7 bytes written, no free space; and the same
after the cursors have wrapped. -/
theorem free_space_law_witness :
    (0 : Int) ≤ 7 ∧
      GetFreeSpace ((Trace.start 7 zeroed).run [Op.write [1, 2, 3, 4, 5, 6, 7]]).st = 0 ∧
      GetFreeSpace ((Trace.start 7 zeroed).run [Op.write [1, 2, 3, 4, 5], Op.readBuf 5,
        Op.commitRead, Op.write [6, 7, 8, 9, 10, 11, 12]]).st = 0 ∧
      GetFreeSpace ((Trace.start 7 zeroed).run [Op.write [1, 2, 3, 4, 5, 6, 7]]).st =
        (7 + 1) - ((Trace.start 7 zeroed).run [Op.write [1, 2, 3, 4, 5, 6, 7]]).liveBytes - 1 :=
  ⟨by decide, by decide, by decide,
    (free_space_law 7 (by decide) zeroed [Op.write [1, 2, 3, 4, 5, 6, 7]]).1⟩

/-- C8, what the code does: in every state of a run from a fresh ring `GetUsedSpace` is one
more than the live bytes, because it subtracts the free space from the storage size, which
counts the sentinel byte. -/
theorem GetUsedSpace_counts_sentinel (C : Int) (hC : 0 ≤ C) (junk : Nat → Nat)
    (ops : List Op) :
    GetUsedSpace ((Trace.start C junk).run ops).st =
      ((Trace.start C junk).run ops).liveBytes + 1 := by
  have hinv := Inv_run ops (Inv_start C junk hC)
  have hf := Inv_free hinv
  unfold GetUsedSpace
  omega

/-- C8 at the failing input: the fresh, empty ring of 7 usable bytes reports 1 used byte. -/
theorem GetUsedSpace_counts_sentinel_witness :
    (0 : Int) ≤ 7 ∧ ((Trace.start 7 zeroed).run []).liveBytes = 0 ∧
      GetUsedSpace (new 7 zeroed) = 1 ∧
      GetUsedSpace ((Trace.start 7 zeroed).run []).st =
        ((Trace.start 7 zeroed).run []).liveBytes + 1 :=
  ⟨by decide, by decide, by decide, GetUsedSpace_counts_sentinel 7 (by decide) zeroed []⟩

/-- C10 at the failing input. On a ring of 7 usable bytes (storage 8) the calls
`Write` 7 bytes, `ReadBuf` 7, `CommitRead`, `Write` `[8, 9, 10]`, `ReadBuf` 1 leave the read
cursor at the physical end 8 with 2 readable bytes, the next of them, `9`, at offset 0.
`ReadBuf` of 1 byte wraps and returns it; `ReadChar`, `ReadByte` and `ReadBool` load from
offset 8, outside the storage, and leave the read cursor at 9. -/
theorem single_byte_readers_miss_wrap :
    ((Trace.start 7 zeroed).run [Op.write [1, 2, 3, 4, 5, 6, 7], Op.readBuf 7, Op.commitRead,
        Op.write [8, 9, 10], Op.readBuf 1]).st = readAtEnd ∧
      readAtEnd.m_ReadPos = readAtEnd.m_BufferSize ∧
      GetReadableSpace readAtEnd = 2 ∧
      ReadBuf readAtEnd 1 = (some [9], { readAtEnd with m_ReadPos := 1 }) ∧
      ReadChar readAtEnd = (some none, { readAtEnd with m_ReadPos := 9 }) ∧
      ReadByte readAtEnd = (some none, { readAtEnd with m_ReadPos := 9 }) ∧
      ReadBool readAtEnd = (some none, { readAtEnd with m_ReadPos := 9 }) := by
  decide

/-! ## Cursor ranges -/

/-- C11, the claim as stated fails: on a ring of 7 usable bytes, after `Write` of 7 bytes,
`ReadBuf` of 7, `CommitRead` and `Write` of 1 byte the write cursor is 8, the storage size,
not an offset in `[0, 7]`. -/
theorem write_cursor_reaches_size :
    ((Trace.start 7 zeroed).run [Op.write [1, 2, 3, 4, 5, 6, 7], Op.readBuf 7, Op.commitRead,
        Op.write [8]]).st.m_WritePos = 8 ∧
      ¬ ((Trace.start 7 zeroed).run [Op.write [1, 2, 3, 4, 5, 6, 7], Op.readBuf 7,
        Op.commitRead, Op.write [8]]).st.m_WritePos ≤ 7 := by
  decide

/-- C11, amended. In every state of a run from a fresh ring of `C` usable bytes by `Write`,
`ReadBuf`, `ReadString`, `SkipRead`, `ReadAll`, `CommitRead` and `ResetRead`, the write cursor,
the read cursor and the commit point each lie in `[0, C + 1]`: a cursor may equal the storage
size `C + 1`, where it stands for offset 0 until the next access wraps it. -/
theorem cursors_within_storage (C : Int) (hC : 0 ≤ C) (junk : Nat → Nat) (ops : List Op) :
    (0 ≤ ((Trace.start C junk).run ops).st.m_WritePos ∧
        ((Trace.start C junk).run ops).st.m_WritePos ≤ C + 1) ∧
      (0 ≤ ((Trace.start C junk).run ops).st.m_ReadPos ∧
        ((Trace.start C junk).run ops).st.m_ReadPos ≤ C + 1) ∧
      (0 ≤ ((Trace.start C junk).run ops).st.m_DataStart ∧
        ((Trace.start C junk).run ops).st.m_DataStart ≤ C + 1) := by
  have h := Inv_run ops (Inv_start C junk hC)
  have hs : ((Trace.start C junk).run ops).st.m_BufferSize = C + 1 := by
    rw [run_size]; rfl
  have h1 := h.wp_hi
  have h2 := h.rp_hi
  have h3 := h.ds_hi
  rw [hs] at h1 h2 h3
  exact ⟨⟨h.wp_lo, h1⟩, ⟨h.rp_lo, h2⟩, ⟨h.ds_lo, h3⟩⟩

/-- C11 amended, on the run of the counterexample: the cursors are 8, 7 and 7, within `[0, 8]`. -/
theorem cursors_within_storage_witness :
    (0 : Int) ≤ 7 ∧
      ((Trace.start 7 zeroed).run [Op.write [1, 2, 3, 4, 5, 6, 7], Op.readBuf 7, Op.commitRead,
        Op.write [8]]).st.m_WritePos ≤ 7 + 1 ∧
      ((Trace.start 7 zeroed).run [Op.write [1, 2, 3, 4, 5, 6, 7], Op.readBuf 7, Op.commitRead,
        Op.write [8]]).st.m_ReadPos = 7 ∧
      ((Trace.start 7 zeroed).run [Op.write [1, 2, 3, 4, 5, 6, 7], Op.readBuf 7, Op.commitRead,
        Op.write [8]]).st.m_DataStart = 7 :=
  ⟨by decide,
    (cursors_within_storage 7 (by decide) zeroed [Op.write [1, 2, 3, 4, 5, 6, 7], Op.readBuf 7,
      Op.commitRead, Op.write [8]]).1.2, by decide, by decide⟩

/-- Runs without the single-byte readers: the readable space lies between 0 and the live bytes,
and with the bytes read since the last commit it makes up the live bytes, which are the
circular distance from the commit point to the write cursor. -/
theorem read_within_live (C : Int) (hC : 0 ≤ C) (junk : Nat → Nat) (ops : List Op) :
    0 ≤ GetReadableSpace ((Trace.start C junk).run ops).st ∧
      GetReadableSpace ((Trace.start C junk).run ops).st ≤
        ((Trace.start C junk).run ops).liveBytes ∧
      (((Trace.start C junk).run ops).pending : Int) +
          GetReadableSpace ((Trace.start C junk).run ops).st =
        ((Trace.start C junk).run ops).liveBytes ∧
      ((Trace.start C junk).run ops).liveBytes =
        ((Trace.start C junk).run ops).st.m_BufferSize - 1 -
          GetFreeSpace ((Trace.start C junk).run ops).st := by
  have h := Inv_run ops (Inv_start C junk hC)
  have hr := Inv_readable h
  have hf := Inv_free h
  have hc := h.consumed
  unfold Trace.liveBytes at *
  omega

/-- C12 at the failing input. On a ring of 7 usable bytes the calls of `pastEndCalls` are all
accepted: two `ReadChar` calls at the physical end leave the read cursor, and the commit
point after `CommitRead`, at 10, beyond the storage size 8. A `Write` of 7 bytes is then accepted,
after which `GetReadableSpace` is `-1` although 7 bytes are live and unread, and `GetFreeSpace`
is 8 although the ring is full. -/
theorem read_cursor_outruns_storage :
    execAll rawBytes (new 7 zeroed) pastEndCalls =
        { m_Buffer := [9, 10, 3, 4, 5, 6, 7, 8], m_BufferSize := 8, m_DataStart := 10,
          m_WritePos := 2, m_ReadPos := 10 } ∧
      GetReadableSpace (execAll rawBytes (new 7 zeroed) pastEndCalls) = 0 ∧
      (Write (execAll rawBytes (new 7 zeroed) pastEndCalls) [11, 12, 13, 14, 15, 16, 17] 7).1
        = true ∧
      GetReadableSpace
        (Write (execAll rawBytes (new 7 zeroed) pastEndCalls) [11, 12, 13, 14, 15, 16, 17] 7).2
        = -1 ∧
      GetFreeSpace
        (Write (execAll rawBytes (new 7 zeroed) pastEndCalls) [11, 12, 13, 14, 15, 16, 17] 7).2
        = 8 := by
  decide

/-! ## The postcondition of a successful `Write` -/

/-- Runs without the single-byte readers (the calls of `Op`): in every state of such a run
from a fresh ring, a `Write` of `count` bytes with
`0 ≤ count ≤ GetFreeSpace` succeeds; the write cursor advances by `count` modulo the storage
size; `GetFreeSpace` drops by exactly `count`; `GetReadableSpace` and `GetUsedSpace` grow by
exactly `count`; the read cursor, the commit point, the storage size and every live
(uncommitted) byte of the storage are unchanged. -/
theorem Write_postcondition (C : Int) (hC : 0 ≤ C) (junk : Nat → Nat) (ops : List Op)
    (bytes : List Nat)
    (hfit : (bytes.length : Int) ≤ GetFreeSpace ((Trace.start C junk).run ops).st) :
    (Write ((Trace.start C junk).run ops).st bytes bytes.length).1 = true ∧
      (Write ((Trace.start C junk).run ops).st bytes bytes.length).2.m_WritePos %
          ((Trace.start C junk).run ops).st.m_BufferSize =
        (((Trace.start C junk).run ops).st.m_WritePos + bytes.length) %
          ((Trace.start C junk).run ops).st.m_BufferSize ∧
      ((Write ((Trace.start C junk).run ops).st bytes bytes.length).2.m_WritePos =
          ((Trace.start C junk).run ops).st.m_WritePos + bytes.length ∨
        (Write ((Trace.start C junk).run ops).st bytes bytes.length).2.m_WritePos =
          ((Trace.start C junk).run ops).st.m_WritePos + bytes.length -
            ((Trace.start C junk).run ops).st.m_BufferSize) ∧
      GetFreeSpace (Write ((Trace.start C junk).run ops).st bytes bytes.length).2 =
        GetFreeSpace ((Trace.start C junk).run ops).st - bytes.length ∧
      GetReadableSpace (Write ((Trace.start C junk).run ops).st bytes bytes.length).2 =
        GetReadableSpace ((Trace.start C junk).run ops).st + bytes.length ∧
      GetUsedSpace (Write ((Trace.start C junk).run ops).st bytes bytes.length).2 =
        GetUsedSpace ((Trace.start C junk).run ops).st + bytes.length ∧
      (Write ((Trace.start C junk).run ops).st bytes bytes.length).2.m_ReadPos =
        ((Trace.start C junk).run ops).st.m_ReadPos ∧
      (Write ((Trace.start C junk).run ops).st bytes bytes.length).2.m_DataStart =
        ((Trace.start C junk).run ops).st.m_DataStart ∧
      (Write ((Trace.start C junk).run ops).st bytes bytes.length).2.m_BufferSize =
        ((Trace.start C junk).run ops).st.m_BufferSize ∧
      ∀ k : Nat, (k : Int) < ((Trace.start C junk).run ops).liveBytes →
        (Write ((Trace.start C junk).run ops).st bytes bytes.length).2.m_Buffer[
            phys ((Trace.start C junk).run ops).st.m_BufferSize
              ((Trace.start C junk).run ops).st.m_DataStart k]? =
          ((Trace.start C junk).run ops).st.m_Buffer[
            phys ((Trace.start C junk).run ops).st.m_BufferSize
              ((Trace.start C junk).run ops).st.m_DataStart k]? := by
  have h := Inv_run ops (Inv_start C junk hC)
  generalize (Trace.start C junk).run ops = t at h hfit ⊢
  obtain ⟨hok, hrp, hds, hsz, hwp, hlen, hnew, hold⟩ :=
    Write_ok t.st bytes h.len h.ds_hi h.wp_lo h.wp_hi hfit
  obtain ⟨_, h2⟩ := Inv_write h bytes hfit []
  have hf := Inv_free h
  have hr := Inv_readable h
  have hf2 := Inv_free h2
  have hr2 := Inv_readable h2
  simp only [Trace.liveBytes, List.length_append] at hf hr hf2 hr2
  push_cast at hf2 hr2
  rw [hsz] at hf2
  refine ⟨hok, ?_, ?_, by omega, by omega, ?_, hrp, hds, hsz, ?_⟩
  · rw [hwp]
    split_ifs
    · have e : t.st.m_WritePos + (bytes.length : Int) - t.st.m_BufferSize =
          t.st.m_WritePos + (bytes.length : Int) + t.st.m_BufferSize * (-1) := by ring
      rw [e, Int.add_mul_emod_self_left]
    · rfl
  · rw [hwp]
    split_ifs
    · right; rfl
    · left; rfl
  · unfold GetUsedSpace
    rw [hsz]; omega
  · intro k hk
    have hk2 : t.committed + k < t.written.length := by
      unfold Trace.liveBytes at hk; omega
    have c1 := h.content k hk2
    have c2 := h2.content k (by simp only [List.length_append]; omega)
    simp only at c2
    rw [hsz, hds, List.getElem?_append_left hk2] at c2
    rw [c2, c1]

/-- The lemma `Write_postcondition` on a ring of 7 usable bytes: a 5-byte `Write` that wraps
around the physical end. -/
theorem Write_postcondition_witness :
    (0 : Int) ≤ 7 ∧
      (([6, 7, 8, 9, 10] : List Nat).length : Int) ≤ GetFreeSpace ((Trace.start 7 zeroed).run
        [Op.write [1, 2, 3, 4, 5], Op.readBuf 5, Op.commitRead]).st ∧
      (Write ((Trace.start 7 zeroed).run [Op.write [1, 2, 3, 4, 5], Op.readBuf 5,
        Op.commitRead]).st [6, 7, 8, 9, 10] 5).2.m_WritePos = 2 ∧
      GetFreeSpace (Write ((Trace.start 7 zeroed).run [Op.write [1, 2, 3, 4, 5], Op.readBuf 5,
          Op.commitRead]).st [6, 7, 8, 9, 10] ([6, 7, 8, 9, 10] : List Nat).length).2 =
        GetFreeSpace ((Trace.start 7 zeroed).run [Op.write [1, 2, 3, 4, 5], Op.readBuf 5,
          Op.commitRead]).st - ([6, 7, 8, 9, 10] : List Nat).length :=
  ⟨by decide, by decide, by decide,
    (Write_postcondition 7 (by decide) zeroed [Op.write [1, 2, 3, 4, 5], Op.readBuf 5,
      Op.commitRead] [6, 7, 8, 9, 10] (by decide)).2.2.2.1⟩

/-- C13 at the failing input. After the calls of `pastEndCalls` on a fresh ring of 7 usable
bytes, in which two `ReadChar` calls at the physical end and a `CommitRead` leave the read
cursor and the commit point at 10, `GetFreeSpace` is 7, `GetReadableSpace` is 0 and
`GetUsedSpace` is 1. A `Write` of 7 bytes is accepted; afterwards `GetFreeSpace` is 8, not 0,
`GetReadableSpace` is `-1`, not 7, and `GetUsedSpace` is 0, not 8. -/
theorem Write_after_past_end :
    GetFreeSpace (execAll rawBytes (new 7 zeroed) pastEndCalls) = 7 ∧
      GetReadableSpace (execAll rawBytes (new 7 zeroed) pastEndCalls) = 0 ∧
      GetUsedSpace (execAll rawBytes (new 7 zeroed) pastEndCalls) = 1 ∧
      Write (execAll rawBytes (new 7 zeroed) pastEndCalls) [11, 12, 13, 14, 15, 16, 17] 7 =
        (true,
          { m_Buffer := [17, 10, 11, 12, 13, 14, 15, 16], m_BufferSize := 8, m_DataStart := 10,
            m_WritePos := 1, m_ReadPos := 10 }) ∧
      GetFreeSpace
        (Write (execAll rawBytes (new 7 zeroed) pastEndCalls) [11, 12, 13, 14, 15, 16, 17] 7).2
        = 8 ∧
      GetReadableSpace
        (Write (execAll rawBytes (new 7 zeroed) pastEndCalls) [11, 12, 13, 14, 15, 16, 17] 7).2
        = -1 ∧
      GetUsedSpace
        (Write (execAll rawBytes (new 7 zeroed) pastEndCalls) [11, 12, 13, 14, 15, 16, 17] 7).2
        = 0 := by
  decide

/-! ## Big-endian scalars -/

/-- Under the invariant, when the next `n` unread bytes of the written stream are `bs`, the
check for `n` bytes passes, `ReadBuf` hands back `bs` and the readable space drops by `n`. -/
theorem Inv_next {t : Trace} (h : Inv t) (n : Nat) (bs : List Nat)
    (hb : (t.written.drop (t.committed + t.pending)).take n = bs) (hl : bs.length = n) :
    (n : Int) ≤ GetReadableSpace t.st ∧ (ReadBuf t.st n).1 = some bs ∧
      GetReadableSpace (ReadBuf t.st n).2 = GetReadableSpace t.st - n := by
  have hr := Inv_readable h
  have hc := h.consumed
  unfold Trace.liveBytes at hr
  have hn : (n : Int) ≤ GetReadableSpace t.st := by
    rw [← hb] at hl
    simp only [List.length_take, List.length_drop] at hl
    omega
  refine ⟨hn, ?_, ReadBuf_readable t.st n h.wp_hi (by omega) hn⟩
  rw [(Inv_read h n hn []).1, hb]

/-- Runs without the single-byte readers (the calls of `Op`): in every state of such a run
from a fresh ring whose next 2 (4, 8) unread bytes in write order are `b0 .. bk`, `ReadBEShort` (`ReadBEInt`, `ReadBEInt64`) succeeds, returns the signed
two's-complement 16-bit (32-bit, 64-bit) reading of the big-endian number `b0 .. bk`, `b0` most
significant, and lowers `GetReadableSpace` by exactly 2 (4, 8), wherever the bytes lie in the
storage. -/
theorem big_endian_decode (C : Int) (hC : 0 ≤ C) (junk : Nat → Nat) (ops : List Op)
    (b0 b1 b2 b3 b4 b5 b6 b7 : Nat) :
    ((((Trace.start C junk).run ops).written.drop (((Trace.start C junk).run ops).committed +
          ((Trace.start C junk).run ops).pending)).take 2 = [b0, b1] →
        (ReadBEShort ((Trace.start C junk).run ops).st).1 =
            some (toSigned 16 (b0 * 256 + b1)) ∧
          GetReadableSpace (ReadBEShort ((Trace.start C junk).run ops).st).2 =
            GetReadableSpace ((Trace.start C junk).run ops).st - 2) ∧
      ((((Trace.start C junk).run ops).written.drop (((Trace.start C junk).run ops).committed +
          ((Trace.start C junk).run ops).pending)).take 4 = [b0, b1, b2, b3] →
        (ReadBEInt ((Trace.start C junk).run ops).st).1 =
            some (toSigned 32 (((b0 * 256 + b1) * 256 + b2) * 256 + b3)) ∧
          GetReadableSpace (ReadBEInt ((Trace.start C junk).run ops).st).2 =
            GetReadableSpace ((Trace.start C junk).run ops).st - 4) ∧
      ((((Trace.start C junk).run ops).written.drop (((Trace.start C junk).run ops).committed +
          ((Trace.start C junk).run ops).pending)).take 8 = [b0, b1, b2, b3, b4, b5, b6, b7] →
        (ReadBEInt64 ((Trace.start C junk).run ops).st).1 =
            some (toSigned 64 (((((((b0 * 256 + b1) * 256 + b2) * 256 + b3) * 256 + b4) * 256
              + b5) * 256 + b6) * 256 + b7)) ∧
          GetReadableSpace (ReadBEInt64 ((Trace.start C junk).run ops).st).2 =
            GetReadableSpace ((Trace.start C junk).run ops).st - 8) := by
  have h := Inv_run ops (Inv_start C junk hC)
  generalize (Trace.start C junk).run ops = t at h ⊢
  refine ⟨?_, ?_, ?_⟩
  · intro hb
    obtain ⟨hn, hbs, hrd⟩ := Inv_next h 2 _ hb rfl
    simp only [Nat.cast_ofNat] at hn hbs hrd
    unfold ReadBEShort CanReadBytes
    rw [if_neg (by simpa using hn)]
    simp only [hbs, hrd, Option.getD_some, ntohs, beValue, List.foldl, zero_mul, zero_add,
      and_self]
  · intro hb
    obtain ⟨hn, hbs, hrd⟩ := Inv_next h 4 _ hb rfl
    simp only [Nat.cast_ofNat] at hn hbs hrd
    unfold ReadBEInt CanReadBytes
    rw [if_neg (by simpa using hn)]
    simp only [hbs, hrd, Option.getD_some, ntohl, beValue, List.foldl, zero_mul, zero_add,
      and_self]
  · intro hb
    obtain ⟨hn, hbs, hrd⟩ := Inv_next h 8 _ hb rfl
    simp only [Nat.cast_ofNat] at hn hbs hrd
    unfold ReadBEInt64 CanReadBytes
    rw [if_neg (by simpa using hn)]
    simp only [hbs, hrd, Option.getD_some, NetworkToHostLong8, beValue, List.foldl, zero_mul,
      zero_add, and_self]

/-- The lemma `big_endian_decode` on concrete rings: the bytes `0x00, 0x01` decode to `0x0001`, and the bytes
`0x12, 0x34` lying at the last and the first offset of the storage decode to `0x1234`. -/
theorem big_endian_decode_witness :
    (0 : Int) ≤ 15 ∧
      (ReadBEShort ((Trace.start 15 zeroed).run
        [Op.write [0, 1, 2, 3, 4, 5, 6, 7, 8, 9]]).st).1 = some 1 ∧
      (ReadBEShort ((Trace.start 7 zeroed).run [Op.write [1, 2, 3, 4, 5, 6, 7], Op.readBuf 7,
        Op.commitRead, Op.write [18, 52]]).st).1 = some 4660 ∧
      ((ReadBEShort ((Trace.start 15 zeroed).run
          [Op.write [0, 1, 2, 3, 4, 5, 6, 7, 8, 9]]).st).1 = some (toSigned 16 (0 * 256 + 1)) ∧
        GetReadableSpace (ReadBEShort ((Trace.start 15 zeroed).run
          [Op.write [0, 1, 2, 3, 4, 5, 6, 7, 8, 9]]).st).2 =
        GetReadableSpace ((Trace.start 15 zeroed).run
          [Op.write [0, 1, 2, 3, 4, 5, 6, 7, 8, 9]]).st - 2) :=
  ⟨by decide, by decide, by decide,
    (big_endian_decode 15 (by decide) zeroed [Op.write [0, 1, 2, 3, 4, 5, 6, 7, 8, 9]]
      0 1 2 3 4 5 6 7).1 (by decide)⟩

/-- C14 at the failing input. After the calls of `pastEndCalls` on a fresh ring of 7 usable
bytes a `Write` of the seven bytes `0, 1, ..., 6` is accepted; the read cursor is 10, beyond the
storage size 8, `GetReadableSpace` is `-1` although the seven bytes are unread, and `ReadBEShort`
and `ReadBEInt` report insufficient data and change nothing, instead of decoding `0x00, 0x01`
and `0x00, 0x01, 0x02, 0x03`. -/
theorem decode_refused_after_past_end :
    (Write (execAll rawBytes (new 7 zeroed) pastEndCalls) [0, 1, 2, 3, 4, 5, 6] 7).1 = true ∧
      refilledPastEnd =
        { m_Buffer := [6, 10, 0, 1, 2, 3, 4, 5], m_BufferSize := 8, m_DataStart := 10,
          m_WritePos := 1, m_ReadPos := 10 } ∧
      GetReadableSpace refilledPastEnd = -1 ∧
      ReadBEShort refilledPastEnd = (none, refilledPastEnd) ∧
      ReadBEInt refilledPastEnd = (none, refilledPastEnd) := by
  decide

/-- C15. The decoding scenario as a run: on a fresh ring of 15 usable bytes the `Write` of the
bytes `0 .. 9` succeeds; `ReadBEShort` returns `0x0001`; `ReadBEInt` returns `0x02030405`; after
`CommitRead` 4 bytes are readable; a further `ReadBEInt` returns `0x06070809` and leaves none
readable; after `ResetRead` 4 bytes are readable again and `ReadBEInt` returns the same value. -/
theorem decoding_scenario :
    (Write (new 15 zeroed) [0, 1, 2, 3, 4, 5, 6, 7, 8, 9] 10).1 = true ∧
      (ReadBEShort scenarioRing).1 = some 0x0001 ∧
      (ReadBEInt (ReadBEShort scenarioRing).2).1 = some 0x02030405 ∧
      GetReadableSpace scenarioCommitted = 4 ∧
      (ReadBEInt scenarioCommitted).1 = some 0x06070809 ∧
      GetReadableSpace (ReadBEInt scenarioCommitted).2 = 0 ∧
      GetReadableSpace (ResetRead (ReadBEInt scenarioCommitted).2) = 4 ∧
      ReadBEInt (ResetRead (ReadBEInt scenarioCommitted).2) = ReadBEInt scenarioCommitted := by
  decide

/-! ## The length-prefixed string reader on runs -/

theorem ReadUTF16String_of_some (T : List Nat → Int → List Nat) (s : cByteBuffer) (n : Int)
    (x : List Nat) (hn : 0 ≤ n) (hr : s.m_ReadPos ≤ s.m_BufferSize)
    (h : (ReadBuf s (n * 2)).1 = some x) :
    ReadUTF16String T s n = (some (some (T x n)), (ReadBuf s (n * 2)).2) := by
  unfold ReadUTF16String
  rw [ReadString_of_valid s (n * 2) (by omega) hr]
  simp only [h, Option.map_some']

theorem ReadUTF16String_of_none (T : List Nat → Int → List Nat) (s : cByteBuffer) (n : Int)
    (hn : 0 ≤ n) (hr : s.m_ReadPos ≤ s.m_BufferSize)
    (h : (ReadBuf s (n * 2)).1 = none) :
    ReadUTF16String T s n = (none, (ReadBuf s (n * 2)).2) := by
  unfold ReadUTF16String
  rw [ReadString_of_valid s (n * 2) (by omega) hr]
  simp only [h, Option.map_none']

/-- C16 at the failing input. The calls of `lengthPastEndCalls` on a fresh ring of 7 usable
bytes, the last a `ReadChar` at the physical end, leave the read cursor at 9, beyond the storage
size 8, with two readable bytes, the length `0x0000`. There the checks for 2 bytes pass and the
first copy of `ReadBuf`, reached from `ReadBEShort`, starts at offset 9 with length `-1`, and
the second copy moves 3 bytes into the two-byte length. On a second ring, with the length bytes
`0xFF, 0xFF`, the length read is `-1`, and `ReadBEUTF16String16` leaves by the exception of
`ReadString`, the two bytes of the length consumed. -/
theorem string_read_past_end :
    execAll rawBytes (new 7 zeroed) lengthPastEndCalls = lengthPastEnd ∧
      GetReadableSpace lengthPastEnd = 2 ∧
      CanReadBytes lengthPastEnd 2 = true ∧
      ReadBufCopies lengthPastEnd 2 = [(9, -1), (0, 3)] ∧
      (ReadBEShort negativeLengthRing).1 = some (-1) ∧
      CanReadBytes (ReadBEShort negativeLengthRing).2 (-1 * 2) = true ∧
      ReadBEUTF16String16 rawBytes negativeLengthRing =
        (some none, { negativeLengthRing with m_ReadPos := 2 }) := by
  decide

/-- Runs without the single-byte readers (the calls of `Op`): in every state of such a run
from a fresh ring whose next two unread bytes
`b0, b1` give a length `N` that is non-negative as the signed `short` the code reads (a prefix
up to `0x7FFF`), `ReadBEUTF16String16` succeeds exactly when `2N` further bytes are readable
after the prefix; on success the transcoder receives the next `2N` written bytes in order,
together with `N`, and `GetReadableSpace` has dropped by exactly `2 + 2N`. -/
theorem utf16_length_and_payload (RawBEToUTF8 : List Nat → Int → List Nat) (C : Int)
    (hC : 0 ≤ C) (junk : Nat → Nat) (ops : List Op) (b0 b1 : Nat)
    (hb : (((Trace.start C junk).run ops).written.drop (((Trace.start C junk).run ops).committed +
      ((Trace.start C junk).run ops).pending)).take 2 = [b0, b1])
    (hN : 0 ≤ toSigned 16 (b0 * 256 + b1)) :
    ((ReadBEUTF16String16 RawBEToUTF8 ((Trace.start C junk).run ops).st).1 ≠ none ↔
        2 * toSigned 16 (b0 * 256 + b1) ≤
          GetReadableSpace ((Trace.start C junk).run ops).st - 2) ∧
      (2 * toSigned 16 (b0 * 256 + b1) ≤
          GetReadableSpace ((Trace.start C junk).run ops).st - 2 →
        (ReadBEUTF16String16 RawBEToUTF8 ((Trace.start C junk).run ops).st).1 =
            some (some (RawBEToUTF8
              ((((Trace.start C junk).run ops).written.drop
                (((Trace.start C junk).run ops).committed +
                  ((Trace.start C junk).run ops).pending + 2)).take
                (2 * toSigned 16 (b0 * 256 + b1)).toNat)
              (toSigned 16 (b0 * 256 + b1)))) ∧
          GetReadableSpace (ReadBEUTF16String16 RawBEToUTF8 ((Trace.start C junk).run ops).st).2 =
            GetReadableSpace ((Trace.start C junk).run ops).st -
              (2 + 2 * toSigned 16 (b0 * 256 + b1))) := by
  have h := Inv_run ops (Inv_start C junk hC)
  generalize (Trace.start C junk).run ops = t at h hb ⊢
  generalize hNdef : toSigned 16 (b0 * 256 + b1) = N at hN ⊢
  obtain ⟨hn, hbs, hrd⟩ := Inv_next h 2 _ hb rfl
  obtain ⟨_, h1⟩ := Inv_read h 2 hn []
  simp only [Nat.cast_ofNat] at hn hbs hrd h1
  have hs : ReadBEShort t.st = (some N, (ReadBuf t.st 2).2) := by
    rw [ReadBEShort_long t.st hn, hbs, ← hNdef]
    simp only [Option.getD_some, ntohs, beValue, List.foldl, zero_mul, zero_add]
  have hu : ReadBEUTF16String16 RawBEToUTF8 t.st =
      ReadUTF16String RawBEToUTF8 (ReadBuf t.st 2).2 N := by
    unfold ReadBEUTF16String16
    rw [hs]
  have hm : (((N * 2).toNat : Nat) : Int) = N * 2 := by omega
  rw [hu]
  by_cases hfit : 2 * N ≤ GetReadableSpace t.st - 2
  · have hfit1 : (((N * 2).toNat : Nat) : Int) ≤ GetReadableSpace (ReadBuf t.st 2).2 := by
      rw [hrd]; omega
    have hrb := (Inv_read h1 (N * 2).toNat hfit1 []).1
    have hrr := ReadBuf_readable (ReadBuf t.st 2).2 (N * 2) h1.wp_hi (by omega) (by omega)
    rw [hm] at hrb
    simp only at hrb
    rw [ReadUTF16String_of_some _ _ _ _ hN h1.rp_hi hrb]
    have e2 : (2 * N).toNat = (N * 2).toNat := by rw [Int.mul_comm]
    refine ⟨⟨fun _ => hfit, fun _ => by simp⟩, fun _ => ⟨?_, ?_⟩⟩
    · simp only [e2, Nat.add_assoc]
    · simp only [hrr, hrd]; omega
  · have hfail := ReadBuf_fail (ReadBuf t.st 2).2 (N * 2) (by rw [hrd]; omega)
    rw [ReadUTF16String_of_none _ _ _ hN h1.rp_hi (by rw [hfail])]
    exact ⟨⟨fun hne => absurd rfl hne, fun hle => absurd hle hfit⟩, fun hle => absurd hle hfit⟩

/-- The lemma `utf16_length_and_payload` on a ring holding the prefix `0x0002` and the four payload bytes of two code
units: the call succeeds, hands the four bytes to the transcoder and leaves nothing readable. -/
theorem utf16_length_and_payload_witness :
    (0 : Int) ≤ 15 ∧ 0 ≤ toSigned 16 (0 * 256 + 2) ∧
      ReadBEUTF16String16 rawBytes ((Trace.start 15 zeroed).run
          [Op.write [0, 2, 0, 65, 0, 66]]).st =
        (some (some [0, 65, 0, 66]), { ((Trace.start 15 zeroed).run
          [Op.write [0, 2, 0, 65, 0, 66]]).st with m_ReadPos := 6 }) ∧
      ((ReadBEUTF16String16 rawBytes ((Trace.start 15 zeroed).run
          [Op.write [0, 2, 0, 65, 0, 66]]).st).1 ≠ none ↔
        2 * toSigned 16 (0 * 256 + 2) ≤
          GetReadableSpace ((Trace.start 15 zeroed).run [Op.write [0, 2, 0, 65, 0, 66]]).st - 2) :=
  ⟨by decide, by decide, by decide,
    (utf16_length_and_payload rawBytes 15 (by decide) zeroed [Op.write [0, 2, 0, 65, 0, 66]]
      0 2 (by decide) (by decide)).1⟩

/-! ## `ReadAll` and the agreement of the block readers -/

theorem GetFreeSpace_frame {s1 s2 : cByteBuffer} (h : ReadFrame s1 s2) :
    GetFreeSpace s2 = GetFreeSpace s1 := by
  obtain ⟨_, hz, hd, hw⟩ := h
  unfold GetFreeSpace
  rw [hz, hd, hw]

theorem ReadBuf_none_iff (s : cByteBuffer) (n : Int) :
    (ReadBuf s n).1 = none ↔ GetReadableSpace s < n := by
  constructor
  · intro h
    by_contra hn
    revert h
    unfold ReadBuf CanReadBytes
    dsimp only
    rw [if_neg (by simpa using hn)]
    split_ifs <;> simp
  · intro h
    rw [ReadBuf_fail s n h]

/-- Under the invariant `ReadAll` hands back every unread byte of the written stream and leaves
nothing readable. -/
theorem Inv_readAll {t : Trace} (h : Inv t) :
    (ReadAll t.st).1 = some (t.written.drop (t.committed + t.pending)) ∧
      (((t.written.drop (t.committed + t.pending)).length : Nat) : Int) =
        GetReadableSpace t.st ∧
      GetReadableSpace (ReadAll t.st).2 = 0 := by
  have hr := Inv_readable h
  have hc := h.consumed
  unfold Trace.liveBytes at hr
  have hrr := ReadBuf_readable t.st (GetReadableSpace t.st) h.wp_hi (by omega) (by omega)
  rw [ReadAll_of_Inv h]
  simp only [List.length_drop, hrr]
  refine ⟨trivial, ?_, ?_⟩ <;> omega

/-- Runs without the single-byte readers (the calls of `Op`): in every state of such a run
from a fresh ring with `n` readable bytes, `ReadAll` returns exactly the `n` unread bytes of the written stream in order, leaves
nothing readable, and leaves the commit point, the write cursor and `GetFreeSpace` unchanged; a
`ResetRead` afterwards gives the ring that `ResetRead` before gives, in which a `ReadAll` returns
all live bytes, the same `n` bytes last. -/
theorem ReadAll_drains (C : Int) (hC : 0 ≤ C) (junk : Nat → Nat) (ops : List Op) :
    (ReadAll ((Trace.start C junk).run ops).st).1 =
        some (((Trace.start C junk).run ops).written.drop
          (((Trace.start C junk).run ops).committed + ((Trace.start C junk).run ops).pending)) ∧
      (((((Trace.start C junk).run ops).written.drop
          (((Trace.start C junk).run ops).committed +
            ((Trace.start C junk).run ops).pending)).length : Nat) : Int) =
        GetReadableSpace ((Trace.start C junk).run ops).st ∧
      GetReadableSpace (ReadAll ((Trace.start C junk).run ops).st).2 = 0 ∧
      (ReadAll ((Trace.start C junk).run ops).st).2.m_DataStart =
        ((Trace.start C junk).run ops).st.m_DataStart ∧
      (ReadAll ((Trace.start C junk).run ops).st).2.m_WritePos =
        ((Trace.start C junk).run ops).st.m_WritePos ∧
      GetFreeSpace (ReadAll ((Trace.start C junk).run ops).st).2 =
        GetFreeSpace ((Trace.start C junk).run ops).st ∧
      ResetRead (ReadAll ((Trace.start C junk).run ops).st).2 =
        ResetRead ((Trace.start C junk).run ops).st ∧
      (ReadAll (ResetRead (ReadAll ((Trace.start C junk).run ops).st).2)).1 =
        some (((Trace.start C junk).run ops).written.drop
          ((Trace.start C junk).run ops).committed) ∧
      (ReadAll (ResetRead (ReadAll ((Trace.start C junk).run ops).st).2)).1.map
          (List.drop ((Trace.start C junk).run ops).pending) =
        (ReadAll ((Trace.start C junk).run ops).st).1 := by
  have h := Inv_run ops (Inv_start C junk hC)
  generalize (Trace.start C junk).run ops = t at h ⊢
  obtain ⟨h1, h2, h3⟩ := Inv_readAll h
  have hfr : ReadFrame t.st (ReadAll t.st).2 := ReadString_frame _ _
  have hreset := ResetRead_congr hfr
  obtain ⟨h4, _, _⟩ := Inv_readAll (Inv_step h Op.resetRead)
  simp only [Trace.step, Nat.add_zero] at h4
  refine ⟨h1, h2, h3, hfr.2.2.1, hfr.2.2.2, GetFreeSpace_frame hfr, hreset, ?_, ?_⟩
  · rw [hreset, h4]
  · rw [hreset, h4, h1, Option.map_some', List.drop_drop]

/-- The lemma `ReadAll_drains` on a ring of 7 usable bytes whose unread bytes lie across the
physical end. -/
theorem ReadAll_drains_witness :
    (0 : Int) ≤ 7 ∧
      (ReadAll ((Trace.start 7 zeroed).run [Op.write [1, 2, 3, 4, 5, 6], Op.readBuf 6,
        Op.commitRead, Op.write [7, 8, 9, 10], Op.readBuf 1]).st).1 = some [8, 9, 10] ∧
      GetReadableSpace (ReadAll ((Trace.start 7 zeroed).run [Op.write [1, 2, 3, 4, 5, 6],
        Op.readBuf 6, Op.commitRead, Op.write [7, 8, 9, 10], Op.readBuf 1]).st).2 = 0 :=
  ⟨by decide, by decide,
    (ReadAll_drains 7 (by decide) zeroed [Op.write [1, 2, 3, 4, 5, 6], Op.readBuf 6,
      Op.commitRead, Op.write [7, 8, 9, 10], Op.readBuf 1]).2.2.1⟩

/-- C17 at the failing input. The calls of `readPastEndCalls` on a fresh ring of 7 usable
bytes, the last a `ReadChar` at the physical end, are all accepted and leave the read cursor at
9, beyond the storage size 8, with `GetReadableSpace` 1, the byte `10` unread. There `ReadString`
of 1 byte, and so `ReadAll`, leaves by the exception of `assign` with the length `-1`: no block
is returned and one byte stays readable. -/
theorem ReadAll_throws_past_end :
    execAll rawBytes (new 7 zeroed) readPastEndCalls = readPastEnd ∧
      GetReadableSpace readPastEnd = 1 ∧
      ReadString readPastEnd (GetReadableSpace readPastEnd) = (some none, readPastEnd) ∧
      ReadAll readPastEnd = (none, readPastEnd) ∧
      GetReadableSpace (ReadAll readPastEnd).2 = 1 := by
  decide

/-- Runs without the single-byte readers (the calls of `Op`): in every state of such a run from
a fresh ring and for every count `n ≥ 0` each of the three fails exactly when `n` exceeds
`GetReadableSpace`; `ReadString` returns what `ReadBuf` returns and all three leave the same
object; on success the read cursor is the one `AdvanceReadPos(n)` computes, also across the
physical end, and the bytes returned are the next `n` bytes of the written stream. -/
theorem block_readers_agree (C : Int) (hC : 0 ≤ C) (junk : Nat → Nat) (ops : List Op)
    (n : Nat) :
    ((ReadBuf ((Trace.start C junk).run ops).st n).1 = none ↔
        GetReadableSpace ((Trace.start C junk).run ops).st < n) ∧
      ((ReadString ((Trace.start C junk).run ops).st n).1 = none ↔
        GetReadableSpace ((Trace.start C junk).run ops).st < n) ∧
      ((SkipRead ((Trace.start C junk).run ops).st n).1 = false ↔
        GetReadableSpace ((Trace.start C junk).run ops).st < n) ∧
      ReadString ((Trace.start C junk).run ops).st n =
        ((ReadBuf ((Trace.start C junk).run ops).st n).1.map some,
          (ReadBuf ((Trace.start C junk).run ops).st n).2) ∧
      (SkipRead ((Trace.start C junk).run ops).st n).2 =
        (ReadBuf ((Trace.start C junk).run ops).st n).2 ∧
      ((n : Int) ≤ GetReadableSpace ((Trace.start C junk).run ops).st →
        (ReadBuf ((Trace.start C junk).run ops).st n).2 =
            AdvanceReadPos ((Trace.start C junk).run ops).st n ∧
          ∃ bs : List Nat, bs.length = n ∧
            (ReadBuf ((Trace.start C junk).run ops).st n).1 = some bs ∧
            (ReadString ((Trace.start C junk).run ops).st n).1 = some (some bs) ∧
            bs = (((Trace.start C junk).run ops).written.drop
              (((Trace.start C junk).run ops).committed +
                ((Trace.start C junk).run ops).pending)).take n) := by
  have h := Inv_run ops (Inv_start C junk hC)
  generalize (Trace.start C junk).run ops = t at h ⊢
  have hs := SkipRead_eq_ReadBuf t.st n
  have hv := ReadString_of_valid t.st n (by omega) h.rp_hi
  refine ⟨ReadBuf_none_iff _ _, ?_, ?_, hv, hs.2, ?_⟩
  · rw [hv, ← ReadBuf_none_iff]
    cases (ReadBuf t.st n).1 <;> simp
  · rw [hs.1, ← ReadBuf_none_iff]
    cases (ReadBuf t.st n).1 <;> simp
  · intro hn
    obtain ⟨bs, hbs, hl, _, _⟩ := ReadBuf_ok t.st n h.len h.rp_lo h.rp_hi h.wp_lo h.wp_hi hn
    have hr := (Inv_read h n hn []).1
    refine ⟨?_, bs, hl, hbs, by rw [hv, hbs]; rfl, ?_⟩
    · rw [← hs.2]
      unfold SkipRead CanReadBytes
      rw [if_neg (by simpa using hn)]
    · rw [hbs] at hr
      exact Option.some.inj hr

/-- The lemma `block_readers_agree` on a ring of 7 usable bytes: a run of 3 bytes across the
physical end is read by
`ReadBuf` and `ReadString` alike, and `SkipRead` leaves the same read cursor 2. -/
theorem block_readers_agree_witness :
    (0 : Int) ≤ 7 ∧
      ReadBuf ((Trace.start 7 zeroed).run [Op.write [1, 2, 3, 4, 5, 6], Op.readBuf 6,
          Op.commitRead, Op.write [7, 8, 9, 10], Op.readBuf 1]).st 3 =
        (some [8, 9, 10], { ((Trace.start 7 zeroed).run [Op.write [1, 2, 3, 4, 5, 6],
          Op.readBuf 6, Op.commitRead, Op.write [7, 8, 9, 10], Op.readBuf 1]).st with
            m_ReadPos := 2 }) ∧
      (SkipRead ((Trace.start 7 zeroed).run [Op.write [1, 2, 3, 4, 5, 6], Op.readBuf 6,
          Op.commitRead, Op.write [7, 8, 9, 10], Op.readBuf 1]).st (3 : Nat)).2 =
        (ReadBuf ((Trace.start 7 zeroed).run [Op.write [1, 2, 3, 4, 5, 6], Op.readBuf 6,
          Op.commitRead, Op.write [7, 8, 9, 10], Op.readBuf 1]).st (3 : Nat)).2 :=
  ⟨by decide, by decide,
    (block_readers_agree 7 (by decide) zeroed [Op.write [1, 2, 3, 4, 5, 6], Op.readBuf 6,
      Op.commitRead, Op.write [7, 8, 9, 10], Op.readBuf 1] 3).2.2.2.2.1⟩

/-- C18 at the failing input. In the ring `readPastEnd`, which the calls of `readPastEndCalls`
reach from a fresh ring of 7 usable bytes, the check for 1 byte passes; `SkipRead` of 1 byte
succeeds and leaves the read cursor at 2; `ReadString` of 1 byte leaves by the exception of
`assign` with the length `-1` and the read cursor stays at 9; the first copy of `ReadBuf` of 1
byte starts at offset 9 with length `-1`. -/
theorem block_readers_disagree_past_end :
    execAll rawBytes (new 7 zeroed) readPastEndCalls = readPastEnd ∧
      CanReadBytes readPastEnd 1 = true ∧
      SkipRead readPastEnd 1 = (true, { readPastEnd with m_ReadPos := 2 }) ∧
      ReadString readPastEnd 1 = (some none, readPastEnd) ∧
      ReadBufCopies readPastEnd 1 = [(9, -1), (0, 2)] := by
  decide

/-! ## Storage accesses stay in bounds -/

theorem Write_buffer_by_copies (s : cByteBuffer) (a_Bytes : List Nat) (a_Count : Int) :
    (Write s a_Bytes a_Count).2.m_Buffer =
      ((WriteCopies s a_Count).foldl copyIn (s.m_Buffer, a_Bytes)).1 := by
  unfold Write WriteCopies
  dsimp only
  split_ifs <;> rfl

theorem ReadBuf_by_copies (s : cByteBuffer) (a_Count : Int) :
    (ReadBuf s a_Count).1 =
      if !CanReadBytes s a_Count then none
      else some ((ReadBufCopies s a_Count).foldl (copyOut s.m_Buffer) []) := by
  unfold ReadBuf ReadBufCopies
  dsimp only
  split_ifs <;> simp [copyOut]

theorem ReadString_by_copies (s : cByteBuffer) (a_Count : Int) :
    (ReadString s a_Count).1 =
      if !CanReadBytes s a_Count then none
      else if a_Count < 0 ∨ s.m_BufferSize - s.m_ReadPos < 0 then some none
      else some (some ((ReadStringCopies s a_Count).foldl (copyOut s.m_Buffer) [])) := by
  unfold ReadString ReadStringCopies
  dsimp only
  split_ifs <;> first | rfl | (simp [copyOut]; done) | (exfalso; omega)

theorem copyInBounds_of (S off len : Int) (h1 : 0 ≤ off) (h2 : 0 ≤ len) (h3 : off + len ≤ S) :
    CopyInBounds S (off, len) := by
  unfold CopyInBounds
  refine ⟨h1, h2, ?_, h3, fun o ho1 ho2 => ?_⟩ <;> simp only at * <;> omega

theorem ReadBufCopies_inBounds (s : cByteBuffer) (n : Int) (hn : 0 ≤ n)
    (hrp0 : 0 ≤ s.m_ReadPos) (hrp1 : s.m_ReadPos ≤ s.m_BufferSize)
    (hwp0 : 0 ≤ s.m_WritePos) (hwp1 : s.m_WritePos ≤ s.m_BufferSize) :
    ∀ c ∈ ReadBufCopies s n, CopyInBounds s.m_BufferSize c := by
  intro c hc
  unfold ReadBufCopies CanReadBytes at hc
  dsimp only at hc
  by_cases hr : n ≤ GetReadableSpace s
  · rw [if_neg (by simpa using hr)] at hc
    have hr2 : n ≤ s.m_BufferSize - s.m_ReadPos + s.m_WritePos ∧
        (s.m_ReadPos ≤ s.m_WritePos → n ≤ s.m_WritePos - s.m_ReadPos) := by
      unfold GetReadableSpace at hr
      split_ifs at hr <;> omega
    by_cases hw : s.m_BufferSize - s.m_ReadPos < n
    · rw [if_pos hw] at hc
      simp only [List.mem_cons, List.mem_singleton, List.not_mem_nil, or_false] at hc
      rcases hc with rfl | rfl
      · exact copyInBounds_of _ _ _ hrp0 (by omega) (by omega)
      · exact copyInBounds_of _ _ _ (by omega) (by omega) (by omega)
    · rw [if_neg hw] at hc
      simp only [List.mem_singleton] at hc
      subst hc
      exact copyInBounds_of _ _ _ hrp0 hn (by omega)
  · rw [if_pos (by simpa using hr)] at hc
    exact absurd hc (List.not_mem_nil c)

theorem ReadStringCopies_eq (s : cByteBuffer) (n : Int) (hn : 0 ≤ n)
    (hr : s.m_ReadPos ≤ s.m_BufferSize) :
    ReadStringCopies s n = ReadBufCopies s n := by
  unfold ReadStringCopies ReadBufCopies
  dsimp only
  split_ifs <;> first | rfl | (exfalso; omega)

theorem WriteCopies_inBounds (s : cByteBuffer) (n : Int) (hn : 0 ≤ n)
    (hds1 : s.m_DataStart ≤ s.m_BufferSize)
    (hwp0 : 0 ≤ s.m_WritePos) (hwp1 : s.m_WritePos ≤ s.m_BufferSize) :
    ∀ c ∈ WriteCopies s n, CopyInBounds s.m_BufferSize c := by
  obtain ⟨hf1, hf2, hf3⟩ := GetFreeSpace_le s hds1 hwp0
  intro c hc
  unfold WriteCopies at hc
  dsimp only at hc
  by_cases hf : GetFreeSpace s < n
  · rw [if_pos hf] at hc
    exact absurd hc (List.not_mem_nil c)
  · rw [if_neg hf] at hc
    by_cases hw : s.m_BufferSize - s.m_WritePos < n
    · rw [if_pos hw] at hc
      simp only [List.mem_cons, List.mem_singleton, List.not_mem_nil, or_false] at hc
      rcases hc with rfl | rfl
      · exact copyInBounds_of _ _ _ hwp0 (by omega) (by omega)
      · exact copyInBounds_of _ _ _ (by omega) (by omega) (by omega)
    · rw [if_neg hw] at hc
      simp only [List.mem_singleton] at hc
      subst hc
      exact copyInBounds_of _ _ _ hwp0 hn (by omega)

/-- C19. In-bounds storage access: in every state of a run from a fresh ring with storage size
`S = C + 1`, the three cursors lie in `[0, S]`, and every copy that `Write` makes into the
storage and that `ReadBuf` or `ReadString` makes out of it, for any non-negative count, has a
non-negative offset and a non-negative length of at most `S` and ends at or before offset `S`,
so that every byte offset it touches lies in `[0, S - 1]`; this holds for both parts of the
two-part copy. -/
theorem storage_access_in_bounds (C : Int) (hC : 0 ≤ C) (junk : Nat → Nat) (ops : List Op)
    (count n : Nat) :
    ((0 ≤ ((Trace.start C junk).run ops).st.m_WritePos ∧
          ((Trace.start C junk).run ops).st.m_WritePos ≤ C + 1) ∧
        (0 ≤ ((Trace.start C junk).run ops).st.m_ReadPos ∧
          ((Trace.start C junk).run ops).st.m_ReadPos ≤ C + 1) ∧
        (0 ≤ ((Trace.start C junk).run ops).st.m_DataStart ∧
          ((Trace.start C junk).run ops).st.m_DataStart ≤ C + 1)) ∧
      (∀ c ∈ WriteCopies ((Trace.start C junk).run ops).st count, CopyInBounds (C + 1) c) ∧
      (∀ c ∈ ReadBufCopies ((Trace.start C junk).run ops).st n, CopyInBounds (C + 1) c) ∧
      (∀ c ∈ ReadStringCopies ((Trace.start C junk).run ops).st n, CopyInBounds (C + 1) c) := by
  have h := Inv_run ops (Inv_start C junk hC)
  have hs : ((Trace.start C junk).run ops).st.m_BufferSize = C + 1 := by
    rw [run_size]; rfl
  rw [← hs]
  refine ⟨⟨⟨h.wp_lo, h.wp_hi⟩, ⟨h.rp_lo, h.rp_hi⟩, ⟨h.ds_lo, h.ds_hi⟩⟩,
    WriteCopies_inBounds _ _ (by omega) h.ds_hi h.wp_lo h.wp_hi,
    ReadBufCopies_inBounds _ _ (by omega) h.rp_lo h.rp_hi h.wp_lo h.wp_hi, ?_⟩
  rw [ReadStringCopies_eq _ _ (by omega) h.rp_hi]
  exact ReadBufCopies_inBounds _ _ (by omega) h.rp_lo h.rp_hi h.wp_lo h.wp_hi

/-- C19 on a ring of 7 usable bytes (storage 8) with the write cursor at 5 and the read cursor
at 7: a `Write` of 5 bytes copies 3 bytes to offset 5 and 2 bytes to offset 0, a `ReadBuf` of 3
bytes copies 1 byte from offset 7 and 2 bytes from offset 0. -/
theorem storage_access_in_bounds_witness :
    (0 : Int) ≤ 7 ∧
      WriteCopies ((Trace.start 7 zeroed).run [Op.write [1, 2, 3, 4, 5], Op.readBuf 5,
        Op.commitRead]).st (5 : Nat) = [(5, 3), (0, 2)] ∧
      ReadBufCopies ((Trace.start 7 zeroed).run [Op.write [1, 2, 3, 4, 5, 6, 7], Op.readBuf 7,
        Op.commitRead, Op.write [8, 9, 10]]).st (3 : Nat) = [(7, 1), (0, 2)] ∧
      ∀ c ∈ WriteCopies ((Trace.start 7 zeroed).run [Op.write [1, 2, 3, 4, 5], Op.readBuf 5,
        Op.commitRead]).st (5 : Nat), CopyInBounds (7 + 1) c :=
  ⟨by decide, by decide, by decide,
    (storage_access_in_bounds 7 (by decide) zeroed [Op.write [1, 2, 3, 4, 5], Op.readBuf 5,
      Op.commitRead] 5 0).2.1⟩

end ByteBuffer

namespace cChunkDef

theorem toInt_of_lt (v : Nat) (h : v < 2147483648) : toInt v = v := by
  unfold toInt
  rw [Nat.mod_eq_of_lt (by omega), if_pos h]

theorem toSizeT_of_nonneg (v : Int) (h0 : 0 ≤ v) (h1 : v < 18446744073709551616) :
    toSizeT v = v.toNat := by
  unfold toSizeT
  rw [Int.emod_eq_of_lt h0 h1]

theorem IndexToCoordinate_eq (i : Nat) (hi : i < 65536) :
    IndexToCoordinate i =
      { x := ((i % 16 : Nat) : Int), y := ((i / 256 : Nat) : Int),
        z := ((i / 16 % 16 : Nat) : Int) } := by
  have w16 : toSizeT Width = 16 := by decide
  have w256 : toSizeT (Width * Width) = 256 := by decide
  unfold IndexToCoordinate
  rw [w16, w256, toInt_of_lt _ (by omega), toInt_of_lt _ (by omega), toInt_of_lt _ (by omega)]

theorem MakeIndex_eq (x y z : Int) (hx0 : 0 ≤ x) (hx1 : x < 16) (hy0 : 0 ≤ y) (hy1 : y < 256)
    (hz0 : 0 ≤ z) (hz1 : z < 16) : MakeIndex x y z = (x + z * 16 + y * 256).toNat := by
  unfold MakeIndex Width
  rw [toSizeT_of_nonneg _ (by omega) (by omega)]
  congr 1
  ring

theorem IsValidRelPos_iff (p : Vector3i) :
    IsValidRelPos p = true ↔
      0 ≤ p.x ∧ p.x < 16 ∧ 0 ≤ p.y ∧ p.y < 256 ∧ 0 ≤ p.z ∧ p.z < 16 := by
  simp only [IsValidRelPos, IsValidWidth, IsValidHeight, Width, Height, Bool.and_eq_true,
    decide_eq_true_eq, ge_iff_le]
  constructor
  · rintro ⟨⟨⟨a, b⟩, c, d⟩, e, f⟩; exact ⟨a, b, c, d, e, f⟩
  · rintro ⟨a, b, c, d, e, f⟩; exact ⟨⟨⟨a, b⟩, c, d⟩, e, f⟩

/-- C20. Chunk index round trip: for `x, z` in `[0, 16)` and `y` in `[0, 256)`,
`MakeIndex(x, y, z)` is below `NumBlocks`, which is 65536, and `IndexToCoordinate` gives back
`(x, y, z)`; for every index below 65536, `IndexToCoordinate` gives a valid relative position
whose `MakeIndex` is the index; so `MakeIndex` is a bijection between the valid relative
positions and `[0, 65536)`. -/
theorem MakeIndex_round_trip :
    NumBlocks = 65536 ∧
      (∀ x y z : Int, 0 ≤ x → x < 16 → 0 ≤ y → y < 256 → 0 ≤ z → z < 16 →
        IsValidRelPos { x := x, y := y, z := z } = true ∧
          (MakeIndex x y z : Int) < NumBlocks ∧
          IndexToCoordinate (MakeIndex x y z) = { x := x, y := y, z := z }) ∧
      (∀ i : Nat, (i : Int) < NumBlocks →
        IsValidRelPos (IndexToCoordinate i) = true ∧
          MakeIndexOf (IndexToCoordinate i) = i) ∧
      (∀ p q : Vector3i, IsValidRelPos p = true → IsValidRelPos q = true →
        MakeIndexOf p = MakeIndexOf q → p = q) := by
  have hN : NumBlocks = 65536 := by decide
  have fwd : ∀ x y z : Int, 0 ≤ x → x < 16 → 0 ≤ y → y < 256 → 0 ≤ z → z < 16 →
      IsValidRelPos { x := x, y := y, z := z } = true ∧
        (MakeIndex x y z : Int) < NumBlocks ∧
        IndexToCoordinate (MakeIndex x y z) = { x := x, y := y, z := z } := by
    intro x y z hx0 hx1 hy0 hy1 hz0 hz1
    rw [hN, MakeIndex_eq x y z hx0 hx1 hy0 hy1 hz0 hz1]
    refine ⟨(IsValidRelPos_iff _).2 ⟨hx0, hx1, hy0, hy1, hz0, hz1⟩, by omega, ?_⟩
    rw [IndexToCoordinate_eq _ (by omega)]
    simp only [Vector3i.mk.injEq]
    refine ⟨?_, ?_, ?_⟩ <;> omega
  refine ⟨hN, fwd, ?_, ?_⟩
  · intro i hi
    rw [hN] at hi
    rw [IndexToCoordinate_eq i (by omega)]
    refine ⟨(IsValidRelPos_iff _).2 (by simp only; omega), ?_⟩
    unfold MakeIndexOf
    simp only
    rw [MakeIndex_eq _ _ _ (by omega) (by omega) (by omega) (by omega) (by omega) (by omega)]
    omega
  · intro p q hp hq hpq
    obtain ⟨a1, a2, a3, a4, a5, a6⟩ := (IsValidRelPos_iff p).1 hp
    obtain ⟨b1, b2, b3, b4, b5, b6⟩ := (IsValidRelPos_iff q).1 hq
    have e1 := (fwd p.x p.y p.z a1 a2 a3 a4 a5 a6).2.2
    have e2 := (fwd q.x q.y q.z b1 b2 b3 b4 b5 b6).2.2
    unfold MakeIndexOf at hpq
    rw [hpq, e2] at e1
    exact e1.symm

/-- C20 at the corners of the chunk: the last block has index 65535 and comes back. -/
theorem MakeIndex_round_trip_witness :
    MakeIndex 15 255 15 = 65535 ∧ MakeIndex 3 100 7 = 25715 ∧
      IndexToCoordinate 25715 = { x := 3, y := 100, z := 7 } ∧
      IndexToCoordinate (MakeIndex 15 255 15) = { x := 15, y := 255, z := 15 } :=
  ⟨by decide, by decide, by decide,
    (MakeIndex_round_trip.2.1 15 255 15 (by decide) (by decide) (by decide) (by decide)
      (by decide) (by decide)).2.2⟩

/-! ## Nibble buffers -/

theorem and_low_byte (b m : Nat) (hm : 255 &&& m = m) : b &&& m = (b % 256) &&& m := by
  have h := Nat.and_pow_two_sub_one_eq_mod b 8
  norm_num at h
  rw [← h, Nat.and_assoc, hm]

theorem packedByte_low (b i n : Nat) : packedByte b i n = packedByte (b % 256) i n := by
  unfold packedByte
  rw [Nat.and_one_is_mod]
  rcases Nat.mod_two_eq_zero_or_one i with h | h <;> rw [h]
  · rw [and_low_byte b _ (by decide)]
  · rw [and_low_byte b _ (by decide)]

theorem and_15 (x : Nat) : x &&& 0x0f = x % 16 := by
  have h := Nat.and_pow_two_sub_one_eq_mod x 4
  norm_num at h
  exact h

theorem expandedNibble_low (b j : Nat) : expandedNibble b j = expandedNibble (b % 256) j := by
  unfold expandedNibble toNibbleType
  rw [Nat.and_one_is_mod, and_15, and_15, Nat.shiftRight_eq_div_pow, Nat.shiftRight_eq_div_pow]
  rcases Nat.mod_two_eq_zero_or_one j with h | h <;> rw [h] <;>
    first | (norm_num; done) | (norm_num; omega)

theorem packedByte_parity (b i n : Nat) : packedByte b i n = packedByte b (i % 2) n := by
  unfold packedByte
  rw [Nat.and_one_is_mod, Nat.and_one_is_mod, Nat.mod_mod]

theorem expandedNibble_parity (b j : Nat) : expandedNibble b j = expandedNibble b (j % 2) := by
  unfold expandedNibble
  rw [Nat.and_one_is_mod, Nat.and_one_is_mod, Nat.mod_mod]

set_option maxRecDepth 100000 in
theorem nibble_table : ∀ b, b < 256 → ∀ n, n < 16 → ∀ p, p < 2 →
    expandedNibble (packedByte b p n) p = n ∧
      expandedNibble (packedByte b p n) (1 - p) = expandedNibble b (1 - p) := by
  decide

theorem nibble_own (b i n : Nat) (hn : n ≤ 15) :
    expandedNibble (packedByte b i n) i = n := by
  rw [packedByte_low, packedByte_parity, expandedNibble_parity]
  exact (nibble_table (b % 256) (Nat.mod_lt _ (by decide)) n (by omega) (i % 2)
    (Nat.mod_lt _ (by decide))).1

theorem nibble_other (b i j n : Nat) (hn : n ≤ 15) (hj : j % 2 ≠ i % 2) :
    expandedNibble (packedByte b i n) j = expandedNibble b j := by
  have hp : j % 2 = 1 - i % 2 := by omega
  rw [packedByte_low, packedByte_parity, expandedNibble_parity, expandedNibble_parity b,
    expandedNibble_low b, hp]
  exact (nibble_table (b % 256) (Nat.mod_lt _ (by decide)) n (by omega) (i % 2)
    (Nat.mod_lt _ (by decide))).2

/-- C21. Nibble pack and expand round trip with frame: for every nibble buffer, every index
`i` with `i / 2` inside the buffer and every nibble value `n` in `[0, 15]`, after
`PackNibble(buffer, i, n)` the call `ExpandNibble(buffer, i)` returns `n`, and for every other
index `j` `ExpandNibble(buffer, j)` returns what it returned before; the buffer keeps its
length and every byte but the one at `i / 2` is untouched. -/
theorem PackNibble_round_trip (a_Buffer : List Nat) (i n : Nat)
    (hi : i / 2 < a_Buffer.length) (hn : n ≤ 15) :
    ExpandNibble (PackNibble a_Buffer i n) i = some n ∧
      (∀ j : Nat, j ≠ i →
        ExpandNibble (PackNibble a_Buffer i n) j = ExpandNibble a_Buffer j) ∧
      (PackNibble a_Buffer i n).length = a_Buffer.length ∧
      (∀ k : Nat, k ≠ i / 2 → (PackNibble a_Buffer i n)[k]? = a_Buffer[k]?) := by
  have hb : a_Buffer[i / 2]? = some (a_Buffer.getD (i / 2) 0) := by
    rw [List.getD_eq_getElem?_getD, List.getElem?_eq_getElem hi]
    rfl
  refine ⟨?_, ?_, ?_, ?_⟩
  · unfold ExpandNibble PackNibble
    rw [List.getElem?_set_self hi]
    simp only [Option.map_some']
    rw [nibble_own _ _ _ hn]
  · intro j hj
    unfold ExpandNibble PackNibble
    by_cases hk : j / 2 = i / 2
    · rw [hk, List.getElem?_set_self hi, hb]
      simp only [Option.map_some']
      rw [nibble_other _ _ _ _ hn (by omega)]
    · rw [List.getElem?_set_ne (Ne.symm hk)]
  · unfold PackNibble
    rw [List.length_set]
  · intro k hk
    unfold PackNibble
    rw [List.getElem?_set_ne (Ne.symm hk)]

/-- C21 on the buffer `[0xAB, 0xCD]`: packing 5 at index 3 makes the second byte `0x5D`; the
nibbles at the indices 0, 1 and 2 are still `0xB`, `0xA` and `0xD`. -/
theorem PackNibble_round_trip_witness :
    3 / 2 < ([0xAB, 0xCD] : List Nat).length ∧ 5 ≤ 15 ∧
      PackNibble [0xAB, 0xCD] 3 5 = [0xAB, 0x5D] ∧
      ExpandNibble (PackNibble [0xAB, 0xCD] 3 5) 2 = some 0xD ∧
      ExpandNibble (PackNibble [0xAB, 0xCD] 3 5) 3 = some 5 :=
  ⟨by decide, by decide, by decide, by decide,
    (PackNibble_round_trip [0xAB, 0xCD] 3 5 (by decide) (by decide)).1⟩

end cChunkDef
